import Mathlib

/-!
Shallow embedding of the `dfpt` depth-first traversal engine
(`traversal.go` of stephenfire/go-dfpt) and proofs about it.

The engine walks a Go value depth-first, dispatching on an adapter's
bindings.  Go's reflective values are embedded as the inductive `GoValue`;
the `Traveller` structure mirrors the Go `Traveller` (post-construction
dispatch tables), `_call` mirrors `Traveller._call`, `_structProperties`
mirrors `Traveller._structProperties`, and `_trav` fuses
`Traveller._traverse` (its re-entry loop and the per-kind child loops are
the extra `TravCall` constructors).  Adapter callbacks are modelled as
functions returning a `descend` boolean and an optional error; every
callback invocation is additionally recorded in a ghost event trace so
that theorems can speak about what was invoked, in which order, with
which arguments, and what each call returned.

Helpers whose Go source lives outside `traversal.go` (the `ItemType`
category metadata, `parentInfo.callIns` and friends, `TraverseConf.Clone`,
the `_containers` set, `Property`) are modelled from the specification and
carry a doc comment saying so.
-/

/-- The Go reflection kinds relevant to the traversal engine
(`reflect.Kind`).  `kInvalid` mirrors `reflect.Invalid`, which marks a
kind-binding slot as unused in `orderItem`. -/
inductive GoKind where
  | kInvalid
  | kBool
  | kString
  | kInt
  | kInt8
  | kInt16
  | kInt32
  | kInt64
  | kUint
  | kUint8
  | kUint16
  | kUint32
  | kUint64
  | kArray
  | kSlice
  | kMap
  | kStruct
  | kPtr
deriving DecidableEq, Repr

/-- Struct field metadata visible to reflection: the field name and
whether the field is exported (`PkgPath == ""` in Go). -/
structure FieldInfo where
  name : String
  exported : Bool
deriving DecidableEq, Repr

/-- A Go value as seen through `reflect.Value`: every value carries its
type name (standing for `reflect.Type`) and its shape.  Slices, maps and
pointers can be nil (`none`). -/
inductive GoValue where
  | vScalar (ty : String) (k : GoKind)
  | vArray (ty : String) (elems : List GoValue)
  | vSlice (ty : String) (elems : Option (List GoValue))
  | vMap (ty : String) (entries : Option (List (GoValue × GoValue)))
  | vStruct (ty : String) (fields : List (FieldInfo × GoValue))
  | vPtr (ty : String) (elem : Option GoValue)
deriving Repr

/-- `reflect.Value.Type()` (as a type name). -/
def GoValue.tyName : GoValue → String
  | .vScalar ty _ => ty
  | .vArray ty _ => ty
  | .vSlice ty _ => ty
  | .vMap ty _ => ty
  | .vStruct ty _ => ty
  | .vPtr ty _ => ty

/-- `reflect.Value.Kind()`. -/
def GoValue.kind : GoValue → GoKind
  | .vScalar _ k => k
  | .vArray _ _ => .kArray
  | .vSlice _ _ => .kSlice
  | .vMap _ _ => .kMap
  | .vStruct _ _ => .kStruct
  | .vPtr _ _ => .kPtr

/-- `reflect.Value.IsNil()` (false on kinds where Go would panic; the
engine only calls it on slice/map/ptr). -/
def GoValue.isNil : GoValue → Bool
  | .vSlice _ none => true
  | .vMap _ none => true
  | .vPtr _ none => true
  | _ => false

/-- The element list of an array or slice (empty for a nil slice). -/
def GoValue.elemsOf : GoValue → List GoValue
  | .vArray _ l => l
  | .vSlice _ (some l) => l
  | _ => []

/-- The entry list of a map (empty for a nil map).  Go iterates
`MapKeys()` in unspecified order; the embedding fixes the order to the
entry list of the value, which is one admissible order. -/
def GoValue.entriesOf : GoValue → List (GoValue × GoValue)
  | .vMap _ (some l) => l
  | _ => []

/-- The field list of a struct value. -/
def GoValue.fieldsOf : GoValue → List (FieldInfo × GoValue)
  | .vStruct _ l => l
  | _ => []

/-- `reflect.Value.Elem()` on a pointer: the pointee, or `none` (an
invalid value) for a nil pointer or a non-pointer. -/
def GoValue.ptrElem : GoValue → Option GoValue
  | .vPtr _ e => e
  | _ => none

/-- `reflect.Value.Len()` for array/slice/map (0 for nil). -/
def GoValue.lenVal (v : GoValue) : Nat :=
  match v with
  | .vArray _ l => l.length
  | .vSlice _ (some l) => l.length
  | .vMap _ (some l) => l.length
  | _ => 0

/-- One record field's resolved property, as used by `_traverse` and the
test resolvers: storage index, display name, explicit order slot
(`IndexForReal`).  The Go declaration lives outside `traversal.go`; the
field set and order are taken from their uses in the source. -/
structure Property where
  Index : Int
  Name : String
  IndexForReal : Int
deriving DecidableEq, Repr

/-- The traversal configuration `TraverseConf`, with exactly the fields
`traversal.go` reads: `Propertier` (custom property resolver),
`PtrAutoGoIn`, `ContainerEnd`, `IgnoreMissedBinding`. -/
structure TraverseConf where
  Propertier : Option (GoValue → Int × List Property)
  PtrAutoGoIn : Bool
  ContainerEnd : Bool
  IgnoreMissedBinding : Bool

/-- Modelled from the spec: `TraverseConf.Clone` is defined outside
`traversal.go`; it returns an independent copy of the configuration with
the same field values, so in the embedding it is the identity on the
configuration value (heap independence is modelled separately via
`ConfHeap`). -/
def TraverseConf.Clone (c : TraverseConf) : TraverseConf := c

/-- The eight binding categories (`ItemType`), declared outside
`traversal.go`; the constructor set is the one `traversal.go` matches
on. -/
inductive ItemType where
  | ForImpl
  | ForAssign
  | ForKind
  | ForContainer
  | ForNilPtr
  | ForIntX
  | ForUintX
  | ForAllKinds
deriving DecidableEq, Repr

/-- Modelled from the spec: which shortcut categories are tried before
the ordered binding list.  The nil-pointer shortcut is the prefix
shortcut (spec section 4.2 step 1). -/
def ItemType.isPre : ItemType → Bool
  | .ForNilPtr => true
  | _ => false

/-- Modelled from the spec: which shortcut categories are tried after
the ordered binding list, as last resort (spec section 4.2 step 4; the
all-kinds shortcut fires "at suffix position"). -/
def ItemType.isSuf : ItemType → Bool
  | .ForIntX => true
  | .ForUintX => true
  | .ForAllKinds => true
  | _ => false

/-- Modelled from the spec: the fixed priority used to sort the prefix
and the suffix shortcut lists ("each internally sorted by category
priority"); the all-kinds catch-all comes last. -/
def ItemType.priority : ItemType → Nat
  | .ForImpl => 0
  | .ForAssign => 1
  | .ForKind => 2
  | .ForContainer => 3
  | .ForNilPtr => 4
  | .ForIntX => 5
  | .ForUintX => 6
  | .ForAllKinds => 7

/-- Modelled from the spec: the matching predicate of a shortcut
category against a value (`ItemType.MatchValue`, defined outside
`traversal.go`): nil-pointer matches nil pointers, the integer
shortcuts match the signed/unsigned integer kinds, all-kinds matches
everything; non-shortcut categories never appear in the shortcut
lists. -/
def ItemType.matchValue : ItemType → GoValue → Bool
  | .ForNilPtr, v => v.kind == .kPtr && v.isNil
  | .ForIntX, v =>
    v.kind == .kInt || v.kind == .kInt8 || v.kind == .kInt16 ||
      v.kind == .kInt32 || v.kind == .kInt64
  | .ForUintX, v =>
    v.kind == .kUint || v.kind == .kUint8 || v.kind == .kUint16 ||
      v.kind == .kUint32 || v.kind == .kUint64
  | .ForAllKinds, _ => true
  | _, _ => false

/-- Modelled from the spec: the set of container kinds (the
`_containers` map, defined outside `traversal.go`): record, fixed array,
variable sequence, map, pointer. -/
def isContainerKind : GoKind → Bool
  | .kArray => true
  | .kSlice => true
  | .kMap => true
  | .kStruct => true
  | .kPtr => true
  | _ => false

/-- Identity of a binding in the dispatch tables: an exact-type binding,
a kind binding, or a shortcut. -/
inductive BindId where
  | typeB (ty : String)
  | kindB (k : GoKind)
  | shortcutB (it : ItemType)
deriving DecidableEq, Repr

/-- Which form a callback invocation took: a plain (non-container) call,
a container start call, or a container end call. -/
inductive CallForm where
  | plain
  | containerStart
  | containerEnd
deriving DecidableEq, Repr

/-- The positional arguments handed to an adapter callback: depth,
offset within the parent, container size, start-or-end flag, and the
visited value.  (Size and flag are only meaningful for container
calls.) -/
structure CallInput where
  depth : Nat
  offset : Int
  size : Int
  startOrEnd : Bool
  value : GoValue

/-- An adapter callback: from the call arguments to the `descend`
decision and an optional error.  (For shortcut callbacks the boolean is
ignored by the engine, matching `parseReturns` discarding it.) -/
def Binding := CallInput → Bool × Option String

/-- Ghost trace events: `visit` marks one `_traverse` invocation on a
node (one child traversal), `call` records one adapter callback
invocation together with what it returned, `props` records one
computation of a struct type's resolved property list
(`true` = configured Propertier, `false` = default enumeration). -/
inductive Event where
  | visit (depth : Nat) (offset : Int) (v : GoValue)
  | call (bid : BindId) (form : CallForm) (depth : Nat) (offset : Int)
      (size : Int) (v : GoValue) (ret : Bool × Option String)
  | props (ty : String) (custom : Bool)
deriving Repr

/-- Traversal outcome: normal return, an error return, or a Go panic. -/
inductive TRes where
  | ok
  | fail (e : String)
  | panicked (m : String)
deriving DecidableEq, Repr

/-- The `parentInfo` frame built when a container is opened: depth, the
container value, total child count, current child offset, resolved
struct properties, and the binding that opened the container (kept for
the end notification).  `bid` is the ghost identity of that binding. -/
structure ParentInfo where
  depth : Nat
  value : GoValue
  size : Int
  offset : Int
  structFields : List Property
  binding : Binding
  bid : BindId

/-- Modelled from the spec: the depth a child of `parent` is visited at
(`parentInfo.nextDepth`, defined outside `traversal.go`): 0 at the root,
the parent frame's depth plus one below a container. -/
def nextDepth : Option ParentInfo → Nat
  | none => 0
  | some p => p.depth + 1

/-- Modelled from the spec: the offset-within-parent argument handed to
callbacks (`parentInfo.callIns`): 0 at the root, the parent frame's
current child offset otherwise. -/
def parentOffset : Option ParentInfo → Int
  | none => 0
  | some p => p.offset

/-- Modelled from the spec: the arguments of a plain (non-container)
callback invocation (`parentInfo.callIns`). -/
def callIns (parent : Option ParentInfo) (v : GoValue) : CallInput :=
  { depth := nextDepth parent, offset := parentOffset parent, size := 0,
    startOrEnd := true, value := v }

/-- Modelled from the spec: the arguments of a container start call
(`parentInfo.startContainerIns`): the new frame's depth and size, the
parent's offset, `startOrEnd = true`. -/
def startContainerIns (parent : Option ParentInfo) (info : ParentInfo)
    (v : GoValue) : CallInput :=
  { depth := info.depth, offset := parentOffset parent, size := info.size,
    startOrEnd := true, value := v }

/-- Modelled from the spec: the arguments of a container end call
(`parentInfo.endContainerIns`): same as the start call but with
`startOrEnd = false`. -/
def endContainerIns (parent : Option ParentInfo) (info : ParentInfo)
    (v : GoValue) : CallInput :=
  { depth := info.depth, offset := parentOffset parent, size := info.size,
    startOrEnd := false, value := v }

/-- One entry of the ordered binding list (`orderItem`): declaration
index `i`, order key `o` (always 0 in `NewTraveller`), exact type `t`
(for type bindings), container flag `c`, kind `k` (for kind
bindings). -/
structure OrderItem where
  i : Nat
  o : Int
  t : Option String
  c : Bool
  k : GoKind

/-- Modelled from the spec: `orderItem.match` — an item matches a value
when the value's runtime type equals the item's exact type, or (for kind
items) the value's runtime kind equals the item's kind. -/
def OrderItem.matchVal (it : OrderItem) (v : GoValue) : Bool :=
  match it.t with
  | some ty => v.tyName == ty
  | none => it.k != .kInvalid && v.kind == it.k

/-- The engine after construction, mirroring Go's `Traveller`: the
configuration, the ordered prefix/suffix shortcut category lists, the
shortcut / exact-type / kind dispatch tables, and the ordered binding
list.  (The declared-but-never-read `structTypeCache` field has no
observable effect in `traversal.go` and is omitted.) -/
structure Traveller where
  conf : Option TraverseConf
  prefixes : List ItemType
  suffixes : List ItemType
  shortcuts : List (ItemType × Binding)
  typeMethods : List (String × Binding)
  kindMethods : List (GoKind × Binding)
  typeOrder : List OrderItem

/-- Result record of `_call`: the five Go return values plus the ghost
events of the callbacks it invoked. -/
structure CallOut where
  goin : Bool
  reEnter : Bool
  info : Option ParentInfo
  newVal : Option GoValue
  events : List Event
  res : TRes

/-- A `CallOut` that invoked nothing. -/
def CallOut.quiet (res : TRes) : CallOut :=
  { goin := false, reEnter := false, info := none, newVal := none,
    events := [], res := res }

/-- Go's `t.conf != nil && t.conf.PtrAutoGoIn`. -/
def confPtrAuto (t : Traveller) : Bool :=
  match t.conf with
  | some c => c.PtrAutoGoIn
  | none => false

/-- Go's `t.conf != nil && t.conf.IgnoreMissedBinding` (negated form at
`traversal.go` line 239). -/
def confIgnoreMissed (t : Traveller) : Bool :=
  match t.conf with
  | some c => c.IgnoreMissedBinding
  | none => false

/-- Go's `t.conf != nil && t.conf.ContainerEnd` (`traversal.go` line
347). -/
def confContainerEnd (t : Traveller) : Bool :=
  match t.conf with
  | some c => c.ContainerEnd
  | none => false

/-- `Traveller._structProperties` (`traversal.go` lines 246-265): use
the configured `Propertier` when present, otherwise enumerate the
exported fields in declaration order with `IndexForReal = -1`; the size
is the number of enumerated fields.  The third component is the ghost
record that one property-resolution computation happened. -/
def _structProperties (t : Traveller) (v : GoValue) :
    Int × List Property × List Event :=
  match t.conf with
  | some conf =>
    match conf.Propertier with
    | some pr =>
      let r := pr v
      (r.1, r.2, [.props v.tyName true])
    | none =>
      let ps := (v.fieldsOf.enum.filterMap fun fi =>
        if fi.2.1.exported then
          some { Index := (fi.1 : Int), Name := fi.2.1.name,
                 IndexForReal := -1 : Property }
        else none)
      ((ps.length : Int), ps, [.props v.tyName false])
  | none =>
    let ps := (v.fieldsOf.enum.filterMap fun fi =>
      if fi.2.1.exported then
        some { Index := (fi.1 : Int), Name := fi.2.1.name,
               IndexForReal := -1 : Property }
      else none)
    ((ps.length : Int), ps, [.props v.tyName false])

/-- The container size / struct field computation of `_call`
(`traversal.go` lines 176-195): array length, non-nil slice length,
twice the non-nil map length, struct property resolution, 1 for a
non-nil pointer. -/
def containerSizeFields (t : Traveller) (kind : GoKind) (v : GoValue) :
    Int × List Property × List Event :=
  match kind with
  | .kArray => ((v.lenVal : Int), [], [])
  | .kSlice => if v.isNil then (0, [], []) else ((v.lenVal : Int), [], [])
  | .kMap => if v.isNil then (0, [], []) else (2 * (v.lenVal : Int), [], [])
  | .kStruct => _structProperties t v
  | .kPtr => if v.isNil then (0, [], []) else (1, [], [])
  | _ => (0, [], [])

/-- `Traveller._call` (`traversal.go` lines 142-244): try the prefix
shortcuts, then the ordered binding list (building a `parentInfo` frame
and issuing a container start call when the matched kind is a container
kind), then — when `PtrAutoGoIn` is configured and the value is a
pointer no binding matched — either request re-entry on the pointee
(non-nil) or finish silently (nil), then the suffix shortcuts, and
finally fail with the missing-binding error unless
`IgnoreMissedBinding` is configured. -/
def _call (t : Traveller) (parent : Option ParentInfo) (v : GoValue) :
    CallOut :=
  match t.prefixes.find? (fun it => it.matchValue v) with
  | some it =>
    match t.shortcuts.lookup it with
    | some b =>
      let inp := callIns parent v
      let r := b inp
      { goin := false, reEnter := false, info := none, newVal := none,
        events := [.call (.shortcutB it) .plain inp.depth inp.offset 0 v r],
        res := match r.2 with | some e => .fail e | none => .ok }
    | none => .quiet (.panicked "shortcut method missing")
  | none =>
  match t.typeOrder.find? (fun item => item.matchVal v) with
  | some item =>
    match item.t with
    | some ty =>
      match t.typeMethods.lookup ty with
      | some b =>
        let inp := callIns parent v
        let r := b inp
        { goin := r.1, reEnter := false, info := none, newVal := none,
          events := [.call (.typeB ty) .plain inp.depth inp.offset 0 v r],
          res := match r.2 with | some e => .fail e | none => .ok }
      | none => .quiet (.panicked "function not found by Type")
    | none =>
      match t.kindMethods.lookup item.k with
      | some b =>
        if isContainerKind item.k then
          let sfe := containerSizeFields t item.k v
          let info : ParentInfo :=
            { depth := nextDepth parent, value := v, size := sfe.1,
              offset := -1, structFields := sfe.2.1, binding := b,
              bid := .kindB item.k }
          let inp := startContainerIns parent info v
          let r := b inp
          { goin := r.1, reEnter := false,
            info := match r.2 with | some _ => none | none => some info,
            newVal := none,
            events := sfe.2.2 ++
              [.call (.kindB item.k) .containerStart inp.depth inp.offset
                inp.size v r],
            res := match r.2 with | some e => .fail e | none => .ok }
        else
          let inp := callIns parent v
          let r := b inp
          { goin := r.1, reEnter := false, info := none, newVal := none,
            events :=
              [.call (.kindB item.k) .plain inp.depth inp.offset 0 v r],
            res := match r.2 with | some e => .fail e | none => .ok }
      | none => .quiet (.panicked "function not found by Kind")
  | none =>
  if confPtrAuto t && v.kind == .kPtr then
    if v.isNil then
      { goin := false, reEnter := false, info := parent, newVal := none,
        events := [], res := .ok }
    else
      { goin := false, reEnter := true, info := parent,
        newVal := v.ptrElem, events := [], res := .ok }
  else
  match t.suffixes.find? (fun it => it.matchValue v) with
  | some it =>
    match t.shortcuts.lookup it with
    | some b =>
      let inp := callIns parent v
      let r := b inp
      { goin := false, reEnter := false, info := none, newVal := none,
        events := [.call (.shortcutB it) .plain inp.depth inp.offset 0 v r],
        res := match r.2 with | some e => .fail e | none => .ok }
    | none => .quiet (.panicked "shortcut method missing")
  | none =>
  if confIgnoreMissed t then
    CallOut.quiet .ok
  else
    CallOut.quiet (.fail ("type:" ++ v.tyName ++ " binding is missing"))

/-- Structural size of a value (termination measure for the walker). -/
def GoValue.psize : GoValue → Nat
  | .vScalar _ _ => 1
  | .vArray _ l => 1 + psizeL l
  | .vSlice _ none => 1
  | .vSlice _ (some l) => 1 + psizeL l
  | .vMap _ none => 1
  | .vMap _ (some l) => 1 + psizeE l
  | .vStruct _ l => 1 + psizeF l
  | .vPtr _ none => 1
  | .vPtr _ (some e) => 1 + e.psize
where
  /-- Size of a value list. -/
  psizeL : List GoValue → Nat
    | [] => 0
    | v :: r => psize v + psizeL r + 1
  /-- Size of a map entry list. -/
  psizeE : List (GoValue × GoValue) → Nat
    | [] => 0
    | kv :: r => psize kv.1 + psize kv.2 + psizeE r + 1
  /-- Size of a struct field list. -/
  psizeF : List (FieldInfo × GoValue) → Nat
    | [] => 0
    | fv :: r => psize fv.2 + psizeF r + 1

/-- One call of the fused traversal state machine: a `_traverse` entry on
a node (`ve` records whether this entry is a fresh visit or a pointer
auto-unwrap re-entry, which emits no ghost visit event), the child
dispatch of an opened container, or one of the three child loops (the
`for` loops of `_traverse` over array/slice indices, map entries, and
resolved struct properties). -/
inductive TravCall where
  | node (parent : Option ParentInfo) (ve : Bool) (v : GoValue)
  | children (next : ParentInfo) (v : GoValue)
  | arrCh (next : ParentInfo) (v : GoValue) (i : Nat)
  | mapCh (next : ParentInfo) (v : GoValue) (i : Nat)
  | structCh (next : ParentInfo) (v : GoValue) (i : Nat)

/-- Primary termination rank of a traversal call. -/
def TravCall.rank1 : TravCall → Nat
  | .node _ _ v => 3 * v.psize + 2
  | .children _ v => 3 * v.psize + 1
  | .arrCh _ v _ => 3 * v.psize
  | .mapCh _ v _ => 3 * v.psize
  | .structCh _ v _ => 3 * v.psize

/-- Secondary termination rank: remaining loop iterations. -/
def TravCall.rank2 : TravCall → Nat
  | .node _ _ _ => 0
  | .children _ _ => 0
  | .arrCh next _ i => next.size.toNat - i
  | .mapCh _ v i => v.entriesOf.length - i
  | .structCh next _ i => next.structFields.length - i

theorem one_le_psize (v : GoValue) : 1 ≤ v.psize := by
  cases v with
  | vScalar ty k => simp only [GoValue.psize]; omega
  | vArray ty l => simp only [GoValue.psize]; omega
  | vSlice ty el => cases el <;> simp only [GoValue.psize] <;> omega
  | vMap ty el => cases el <;> simp only [GoValue.psize] <;> omega
  | vStruct ty l => simp only [GoValue.psize]; omega
  | vPtr ty el => cases el <;> simp only [GoValue.psize] <;> omega

theorem psize_le_of_mem_L {c : GoValue} {l : List GoValue} (h : c ∈ l) :
    c.psize + 1 ≤ GoValue.psize.psizeL l := by
  induction l with
  | nil => cases h
  | cons a r ih =>
    rcases List.mem_cons.mp h with h1 | h1
    · subst h1; simp only [GoValue.psize.psizeL]; omega
    · have := ih h1; simp only [GoValue.psize.psizeL]; omega

theorem psize_le_of_mem_E {kv : GoValue × GoValue}
    {l : List (GoValue × GoValue)} (h : kv ∈ l) :
    kv.1.psize + kv.2.psize + 1 ≤ GoValue.psize.psizeE l := by
  induction l with
  | nil => cases h
  | cons a r ih =>
    rcases List.mem_cons.mp h with h1 | h1
    · subst h1; simp only [GoValue.psize.psizeE]; omega
    · have := ih h1; simp only [GoValue.psize.psizeE]; omega

theorem psize_le_of_mem_F {fv : FieldInfo × GoValue}
    {l : List (FieldInfo × GoValue)} (h : fv ∈ l) :
    fv.2.psize + 1 ≤ GoValue.psize.psizeF l := by
  induction l with
  | nil => cases h
  | cons a r ih =>
    rcases List.mem_cons.mp h with h1 | h1
    · subst h1; simp only [GoValue.psize.psizeF]; omega
    · have := ih h1; simp only [GoValue.psize.psizeF]; omega

theorem rank_of_mem_elemsOf {c v : GoValue} (h : c ∈ v.elemsOf) :
    3 * c.psize + 2 < 3 * v.psize := by
  cases v with
  | vArray ty l =>
    simp only [GoValue.elemsOf] at h
    have := psize_le_of_mem_L h
    simp only [GoValue.psize]; omega
  | vSlice ty el =>
    cases el with
    | some l =>
      simp only [GoValue.elemsOf] at h
      have := psize_le_of_mem_L h
      simp only [GoValue.psize]; omega
    | none => simp [GoValue.elemsOf] at h
  | vScalar ty k => simp [GoValue.elemsOf] at h
  | vMap ty e => simp [GoValue.elemsOf] at h
  | vStruct ty f => simp [GoValue.elemsOf] at h
  | vPtr ty e => simp [GoValue.elemsOf] at h

theorem rank_of_mem_entriesOf {kv : GoValue × GoValue} {v : GoValue}
    (h : kv ∈ v.entriesOf) :
    3 * kv.1.psize + 2 < 3 * v.psize ∧ 3 * kv.2.psize + 2 < 3 * v.psize := by
  cases v with
  | vMap ty e =>
    cases e with
    | some l =>
      simp only [GoValue.entriesOf] at h
      have := psize_le_of_mem_E h
      have h1 := one_le_psize kv.1
      have h2 := one_le_psize kv.2
      simp only [GoValue.psize]
      constructor <;> omega
    | none => simp [GoValue.entriesOf] at h
  | vScalar ty k => simp [GoValue.entriesOf] at h
  | vArray ty l => simp [GoValue.entriesOf] at h
  | vSlice ty e => simp [GoValue.entriesOf] at h
  | vStruct ty f => simp [GoValue.entriesOf] at h
  | vPtr ty e => simp [GoValue.entriesOf] at h

theorem rank_of_mem_fieldsOf {fv : FieldInfo × GoValue} {v : GoValue}
    (h : fv ∈ v.fieldsOf) : 3 * fv.2.psize + 2 < 3 * v.psize := by
  cases v with
  | vStruct ty l =>
    simp only [GoValue.fieldsOf] at h
    have := psize_le_of_mem_F h
    simp only [GoValue.psize]; omega
  | vScalar ty k => simp [GoValue.fieldsOf] at h
  | vArray ty l => simp [GoValue.fieldsOf] at h
  | vSlice ty e => simp [GoValue.fieldsOf] at h
  | vMap ty e => simp [GoValue.fieldsOf] at h
  | vPtr ty e => simp [GoValue.fieldsOf] at h

theorem rank_of_ptrElem {e v : GoValue} (h : v.ptrElem = some e) :
    3 * e.psize + 2 < 3 * v.psize := by
  cases v with
  | vPtr ty el =>
    cases el with
    | some e0 =>
      simp only [GoValue.ptrElem, Option.some.injEq] at h
      subst h
      simp only [GoValue.psize]; omega
    | none => simp [GoValue.ptrElem] at h
  | vScalar ty k => simp [GoValue.ptrElem] at h
  | vArray ty l => simp [GoValue.ptrElem] at h
  | vSlice ty el => simp [GoValue.ptrElem] at h
  | vMap ty el => simp [GoValue.ptrElem] at h
  | vStruct ty l => simp [GoValue.ptrElem] at h

theorem _call_reenter_psize {t : Traveller} {parent : Option ParentInfo}
    {v nv : GoValue} (h1 : (_call t parent v).reEnter = true)
    (h2 : (_call t parent v).newVal = some nv) :
    3 * nv.psize + 2 < 3 * v.psize := by
  unfold _call at h1 h2
  repeat' split at h1
  all_goals simp_all [CallOut.quiet]
  exact rank_of_ptrElem h2

/-- The recursive walker, fusing `Traveller._traverse` (`traversal.go`
lines 267-355) with its pointer re-entry loop and its per-kind child
loops.  A `node` call runs `_call` and then either re-enters on the
pointee (`PtrAutoGoIn`), finishes, or — for an opened container — runs
the child loop for the container's kind and finally, when
`ContainerEnd` is configured, issues the end notification, wrapping an
error returned by it in `"call container end failed: "` (line 351).
The loops mirror the Go `for` loops: array/slice children run `i` from
0 to `next.size`, map entries contribute the key at offset `2*i` and
the value at `2*i+1`, struct children follow the resolved property
list, skipping properties with a negative storage `Index` while the
offset stays the property's position in the list. -/
def _trav (t : Traveller) : TravCall → List Event × TRes
  | .node parent ve v =>
    let ev0 : List Event :=
      if ve then [.visit (nextDepth parent) (parentOffset parent) v] else []
    let co := _call t parent v
    match co.res with
    | .ok =>
      if co.reEnter then
        match hnv : co.newVal with
        | some nv =>
          let r := _trav t (.node parent false nv)
          (ev0 ++ co.events ++ r.1, r.2)
        | none => (ev0 ++ co.events, .panicked "reenter need a valid value")
      else if co.goin then
        match co.info with
        | some next =>
          let r := _trav t (.children next v)
          match r.2 with
          | .ok =>
            if confContainerEnd t then
              let inp := endContainerIns parent next v
              let er := next.binding inp
              let endEv : Event :=
                .call next.bid .containerEnd inp.depth inp.offset inp.size
                  v er
              match er.2 with
              | some e =>
                (ev0 ++ co.events ++ r.1 ++ [endEv],
                 .fail ("call container end failed: " ++ e))
              | none => (ev0 ++ co.events ++ r.1 ++ [endEv], .ok)
            else (ev0 ++ co.events ++ r.1, .ok)
          | r2 => (ev0 ++ co.events ++ r.1, r2)
        | none =>
          (ev0 ++ co.events, .panicked "container value need next *parentInfo")
      else (ev0 ++ co.events, .ok)
    | r => (ev0 ++ co.events, r)
  | .children next v =>
    match v.kind with
    | .kArray => _trav t (.arrCh next v 0)
    | .kSlice => _trav t (.arrCh next v 0)
    | .kMap =>
      if 0 < next.size then
        if 2 * (v.entriesOf.length : Int) = next.size then
          _trav t (.mapCh next v 0)
        else ([], .panicked "unexpected map key count")
      else ([], .ok)
    | .kStruct => _trav t (.structCh next v 0)
    | .kPtr =>
      if 0 < next.size then
        match hel : v.ptrElem with
        | some e =>
          _trav t (.node (some { next with offset := 0 }) true e)
        | none => ([], .fail "invalid value in _traverse")
      else ([], .ok)
    | _ => ([], .panicked "unknown status")
  | .arrCh next v i =>
    if (i : Int) < next.size then
      match helem : v.elemsOf.get? i with
      | some child =>
        let r := _trav t (.node (some { next with offset := (i : Int) }) true
          child)
        match r.2 with
        | .ok =>
          let r2 := _trav t (.arrCh next v (i + 1))
          (r.1 ++ r2.1, r2.2)
        | r2 => (r.1, r2)
      | none => ([], .panicked "index out of range")
    else ([], .ok)
  | .mapCh next v i =>
    if i < v.entriesOf.length then
      match hent : v.entriesOf.get? i with
      | some kv =>
        let rk := _trav t (.node
          (some { next with offset := 2 * (i : Int) }) true kv.1)
        match rk.2 with
        | .ok =>
          let rv := _trav t (.node
            (some { next with offset := 2 * (i : Int) + 1 }) true kv.2)
          match rv.2 with
          | .ok =>
            let r2 := _trav t (.mapCh next v (i + 1))
            (rk.1 ++ rv.1 ++ r2.1, r2.2)
          | e => (rk.1 ++ rv.1, e)
        | e => (rk.1, e)
      | none => ([], .panicked "index out of range")
    else ([], .ok)
  | .structCh next v i =>
    match hfld : next.structFields.get? i with
    | some field =>
      if field.Index < 0 then
        _trav t (.structCh next v (i + 1))
      else
        match hf : v.fieldsOf.get? field.Index.toNat with
        | some fv =>
          let r := _trav t (.node
            (some { next with offset := (i : Int) }) true fv.2)
          match r.2 with
          | .ok =>
            let r2 := _trav t (.structCh next v (i + 1))
            (r.1 ++ r2.1, r2.2)
          | e => (r.1, e)
        | none => ([], .panicked "field index out of range")
    | none => ([], .ok)
termination_by c => (c.rank1, c.rank2)
decreasing_by
  all_goals
    first
    | (apply Prod.Lex.right
       simp only [TravCall.rank2]
       first
       | omega
       | (have h9 := (List.get?_eq_some.mp hfld).1; omega))
    | (apply Prod.Lex.left
       simp only [TravCall.rank1]
       first
       | omega
       | (have h9 := _call_reenter_psize (by assumption) hnv; omega)
       | (have h9 := rank_of_ptrElem hel; omega)
       | (have h9 := rank_of_mem_elemsOf (List.get?_mem helem); omega)
       | (have h9 := (rank_of_mem_entriesOf (List.get?_mem hent)).1; omega)
       | (have h9 := (rank_of_mem_entriesOf (List.get?_mem hent)).2; omega)
       | (have h9 := rank_of_mem_fieldsOf (List.get?_mem hf); omega))

/-- `Traveller.Traverse` (`traversal.go` lines 357-363): an invalid
(untyped) root is a no-op success; otherwise walk the root with no
parent frame. -/
def Traverse (t : Traveller) (obj : Option GoValue) : List Event × TRes :=
  match obj with
  | none => ([], .ok)
  | some v => _trav t (.node none true v)

/-- Fuel-indexed mirror of `_trav` (`none` = out of fuel), used to
evaluate the walker on concrete inputs by kernel reduction;
`travFuel_sound` transports the results to `_trav`. -/
def travFuel (t : Traveller) : Nat → TravCall → Option (List Event × TRes)
  | 0, _ => none
  | Nat.succ n, c =>
    match c with
    | .node parent ve v =>
      let ev0 : List Event :=
        if ve then [.visit (nextDepth parent) (parentOffset parent) v]
        else []
      let co := _call t parent v
      match co.res with
      | .ok =>
        if co.reEnter then
          match co.newVal with
          | some nv =>
            match travFuel t n (.node parent false nv) with
            | some r => some (ev0 ++ co.events ++ r.1, r.2)
            | none => none
          | none =>
            some (ev0 ++ co.events, .panicked "reenter need a valid value")
        else if co.goin then
          match co.info with
          | some next =>
            match travFuel t n (.children next v) with
            | some r =>
              match r.2 with
              | .ok =>
                if confContainerEnd t then
                  let inp := endContainerIns parent next v
                  let er := next.binding inp
                  let endEv : Event :=
                    .call next.bid .containerEnd inp.depth inp.offset
                      inp.size v er
                  match er.2 with
                  | some e =>
                    some (ev0 ++ co.events ++ r.1 ++ [endEv],
                          .fail ("call container end failed: " ++ e))
                  | none => some (ev0 ++ co.events ++ r.1 ++ [endEv], .ok)
                else some (ev0 ++ co.events ++ r.1, .ok)
              | r2 => some (ev0 ++ co.events ++ r.1, r2)
            | none => none
          | none =>
            some (ev0 ++ co.events,
                  .panicked "container value need next *parentInfo")
        else some (ev0 ++ co.events, .ok)
      | r => some (ev0 ++ co.events, r)
    | .children next v =>
      match v.kind with
      | .kArray => travFuel t n (.arrCh next v 0)
      | .kSlice => travFuel t n (.arrCh next v 0)
      | .kMap =>
        if 0 < next.size then
          if 2 * (v.entriesOf.length : Int) = next.size then
            travFuel t n (.mapCh next v 0)
          else some ([], .panicked "unexpected map key count")
        else some ([], .ok)
      | .kStruct => travFuel t n (.structCh next v 0)
      | .kPtr =>
        if 0 < next.size then
          match v.ptrElem with
          | some e =>
            travFuel t n (.node (some { next with offset := 0 }) true e)
          | none => some ([], .fail "invalid value in _traverse")
        else some ([], .ok)
      | _ => some ([], .panicked "unknown status")
    | .arrCh next v i =>
      if (i : Int) < next.size then
        match v.elemsOf.get? i with
        | some child =>
          match travFuel t n
              (.node (some { next with offset := (i : Int) }) true child) with
          | some r =>
            match r.2 with
            | .ok =>
              match travFuel t n (.arrCh next v (i + 1)) with
              | some r2 => some (r.1 ++ r2.1, r2.2)
              | none => none
            | r2 => some (r.1, r2)
          | none => none
        | none => some ([], .panicked "index out of range")
      else some ([], .ok)
    | .mapCh next v i =>
      if i < v.entriesOf.length then
        match v.entriesOf.get? i with
        | some kv =>
          match travFuel t n
              (.node (some { next with offset := 2 * (i : Int) }) true
                kv.1) with
          | some rk =>
            match rk.2 with
            | .ok =>
              match travFuel t n
                  (.node (some { next with offset := 2 * (i : Int) + 1 })
                    true kv.2) with
              | some rv =>
                match rv.2 with
                | .ok =>
                  match travFuel t n (.mapCh next v (i + 1)) with
                  | some r2 => some (rk.1 ++ rv.1 ++ r2.1, r2.2)
                  | none => none
                | e => some (rk.1 ++ rv.1, e)
              | none => none
            | e => some (rk.1, e)
          | none => none
        | none => some ([], .panicked "index out of range")
      else some ([], .ok)
    | .structCh next v i =>
      match next.structFields.get? i with
      | some field =>
        if field.Index < 0 then
          travFuel t n (.structCh next v (i + 1))
        else
          match v.fieldsOf.get? field.Index.toNat with
          | some fv =>
            match travFuel t n
                (.node (some { next with offset := (i : Int) }) true
                  fv.2) with
            | some r =>
              match r.2 with
              | .ok =>
                match travFuel t n (.structCh next v (i + 1)) with
                | some r2 => some (r.1 ++ r2.1, r2.2)
                | none => none
              | e => some (r.1, e)
            | none => none
          | none => some ([], .panicked "field index out of range")
      | none => some ([], .ok)

/-- Unfolding equation for `_trav` on a node call, with plain (non-
dependent) matches. -/
theorem trav_node_eq (t : Traveller) (parent : Option ParentInfo)
    (ve : Bool) (v : GoValue) :
    _trav t (.node parent ve v) =
      (match (_call t parent v).res with
      | .ok =>
        if (_call t parent v).reEnter then
          match (_call t parent v).newVal with
          | some nv =>
            ((if ve then [.visit (nextDepth parent) (parentOffset parent) v]
              else []) ++ (_call t parent v).events ++
              (_trav t (.node parent false nv)).1,
             (_trav t (.node parent false nv)).2)
          | none =>
            ((if ve then [.visit (nextDepth parent) (parentOffset parent) v]
              else []) ++ (_call t parent v).events,
             .panicked "reenter need a valid value")
        else if (_call t parent v).goin then
          match (_call t parent v).info with
          | some next =>
            match (_trav t (.children next v)).2 with
            | .ok =>
              if confContainerEnd t then
                match (next.binding (endContainerIns parent next v)).2 with
                | some e =>
                  ((if ve then
                      [.visit (nextDepth parent) (parentOffset parent) v]
                    else []) ++ (_call t parent v).events ++
                    (_trav t (.children next v)).1 ++
                    [.call next.bid .containerEnd next.depth
                      (parentOffset parent) next.size v
                      (next.binding (endContainerIns parent next v))],
                   .fail ("call container end failed: " ++ e))
                | none =>
                  ((if ve then
                      [.visit (nextDepth parent) (parentOffset parent) v]
                    else []) ++ (_call t parent v).events ++
                    (_trav t (.children next v)).1 ++
                    [.call next.bid .containerEnd next.depth
                      (parentOffset parent) next.size v
                      (next.binding (endContainerIns parent next v))],
                   .ok)
              else
                ((if ve then
                    [.visit (nextDepth parent) (parentOffset parent) v]
                  else []) ++ (_call t parent v).events ++
                  (_trav t (.children next v)).1, .ok)
            | r2 =>
              ((if ve then
                  [.visit (nextDepth parent) (parentOffset parent) v]
                else []) ++ (_call t parent v).events ++
                (_trav t (.children next v)).1, r2)
          | none =>
            ((if ve then [.visit (nextDepth parent) (parentOffset parent) v]
              else []) ++ (_call t parent v).events,
             .panicked "container value need next *parentInfo")
        else
          ((if ve then [.visit (nextDepth parent) (parentOffset parent) v]
            else []) ++ (_call t parent v).events, .ok)
      | r =>
        ((if ve then [.visit (nextDepth parent) (parentOffset parent) v]
          else []) ++ (_call t parent v).events, r)) := by
  rw [_trav.eq_1]
  cases hres : (_call t parent v).res with
  | ok =>
    simp only [hres]
    cases hre : (_call t parent v).reEnter with
    | true =>
      simp only [hre, if_true]
      split
      next nv heq => simp only [heq]
      next heq => simp only [heq]
    | false =>
      simp [hre, endContainerIns]
  | fail e => simp [hres]
  | panicked msg => simp [hres]

/-- Unfolding equation for `_trav` on a children call, with plain
matches. -/
theorem trav_children_eq (t : Traveller) (next : ParentInfo)
    (v : GoValue) :
    _trav t (.children next v) =
      (match v.kind with
      | .kArray => _trav t (.arrCh next v 0)
      | .kSlice => _trav t (.arrCh next v 0)
      | .kMap =>
        if 0 < next.size then
          if 2 * (v.entriesOf.length : Int) = next.size then
            _trav t (.mapCh next v 0)
          else ([], .panicked "unexpected map key count")
        else ([], .ok)
      | .kStruct => _trav t (.structCh next v 0)
      | .kPtr =>
        if 0 < next.size then
          match v.ptrElem with
          | some e =>
            _trav t (.node (some { next with offset := 0 }) true e)
          | none => ([], .fail "invalid value in _traverse")
        else ([], .ok)
      | _ => ([], .panicked "unknown status")) := by
  rw [_trav.eq_2]
  cases hk : v.kind <;> simp only [hk]
  case kPtr =>
    by_cases hsz : 0 < next.size
    · rw [if_pos hsz, if_pos hsz]
      split
      next e heq => simp only [heq]
      next heq => simp only [heq]
    · rw [if_neg hsz, if_neg hsz]

/-- Unfolding equation for `_trav` on an array/slice child-loop call,
with plain matches. -/
theorem trav_arrCh_eq (t : Traveller) (next : ParentInfo) (v : GoValue)
    (i : Nat) :
    _trav t (.arrCh next v i) =
      (if (i : Int) < next.size then
        match v.elemsOf.get? i with
        | some child =>
          match (_trav t (.node (some { next with offset := (i : Int) })
              true child)).2 with
          | .ok =>
            ((_trav t (.node (some { next with offset := (i : Int) })
                true child)).1 ++ (_trav t (.arrCh next v (i + 1))).1,
             (_trav t (.arrCh next v (i + 1))).2)
          | r2 =>
            ((_trav t (.node (some { next with offset := (i : Int) })
                true child)).1, r2)
        | none => ([], .panicked "index out of range")
      else ([], .ok)) := by
  rw [_trav.eq_3]
  by_cases hlt : (i : Int) < next.size
  · rw [if_pos hlt, if_pos hlt]
    split
    next child heq => simp only [heq]
    next heq => simp only [heq]
  · rw [if_neg hlt, if_neg hlt]

/-- Unfolding equation for `_trav` on a map child-loop call, with plain
matches. -/
theorem trav_mapCh_eq (t : Traveller) (next : ParentInfo) (v : GoValue)
    (i : Nat) :
    _trav t (.mapCh next v i) =
      (if i < v.entriesOf.length then
        match v.entriesOf.get? i with
        | some kv =>
          match (_trav t (.node
              (some { next with offset := 2 * (i : Int) }) true kv.1)).2 with
          | .ok =>
            match (_trav t (.node
                (some { next with offset := 2 * (i : Int) + 1 }) true
                kv.2)).2 with
            | .ok =>
              ((_trav t (.node (some { next with offset := 2 * (i : Int) })
                  true kv.1)).1 ++
                (_trav t (.node
                  (some { next with offset := 2 * (i : Int) + 1 }) true
                  kv.2)).1 ++ (_trav t (.mapCh next v (i + 1))).1,
               (_trav t (.mapCh next v (i + 1))).2)
            | e =>
              ((_trav t (.node (some { next with offset := 2 * (i : Int) })
                  true kv.1)).1 ++
                (_trav t (.node
                  (some { next with offset := 2 * (i : Int) + 1 }) true
                  kv.2)).1, e)
          | e =>
            ((_trav t (.node (some { next with offset := 2 * (i : Int) })
                true kv.1)).1, e)
        | none => ([], .panicked "index out of range")
      else ([], .ok)) := by
  rw [_trav.eq_4]
  by_cases hlt : i < v.entriesOf.length
  · rw [if_pos hlt, if_pos hlt]
    split
    next kv heq => simp only [heq]
    next heq => simp only [heq]
  · rw [if_neg hlt, if_neg hlt]

/-- Unfolding equation for `_trav` on a struct child-loop call, with
plain matches. -/
theorem trav_structCh_eq (t : Traveller) (next : ParentInfo) (v : GoValue)
    (i : Nat) :
    _trav t (.structCh next v i) =
      (match next.structFields.get? i with
      | some field =>
        if field.Index < 0 then
          _trav t (.structCh next v (i + 1))
        else
          match v.fieldsOf.get? field.Index.toNat with
          | some fv =>
            match (_trav t (.node (some { next with offset := (i : Int) })
                true fv.2)).2 with
            | .ok =>
              ((_trav t (.node (some { next with offset := (i : Int) })
                  true fv.2)).1 ++
                (_trav t (.structCh next v (i + 1))).1,
               (_trav t (.structCh next v (i + 1))).2)
            | e =>
              ((_trav t (.node (some { next with offset := (i : Int) })
                  true fv.2)).1, e)
          | none => ([], .panicked "field index out of range")
      | none => ([], .ok)) := by
  rw [_trav.eq_5]
  split
  next field hfld =>
    simp only [hfld]
    by_cases hneg : field.Index < 0
    · rw [if_pos hneg, if_pos hneg]
    · rw [if_neg hneg, if_neg hneg]
      split
      next fv heq => simp only [heq]
      next heq => simp only [heq]
  next hfld => simp only [hfld]

theorem travFuel_agrees (t : Traveller) :
    ∀ (n : Nat) (c : TravCall),
      travFuel t n c = none ∨ travFuel t n c = some (_trav t c) := by
  intro n
  induction n with
  | zero => intro c; left; rfl
  | succ m ih =>
    intro c
    cases c with
    | node parent ve v =>
      simp only [travFuel]
      rw [_trav.eq_1]
      cases hres : (_call t parent v).res with
      | fail e => right; simp [hres]
      | panicked msg => right; simp [hres]
      | ok =>
        cases hre : (_call t parent v).reEnter with
        | true =>
          cases hnv : (_call t parent v).newVal with
          | none => right; simp [hres, hre, hnv]
          | some nv =>
            rcases ih (.node parent false nv) with hS | hS
            · left; simp [hres, hre, hnv, hS]
            · right; simp [hres, hre, hnv, hS]
        | false =>
          cases hgo : (_call t parent v).goin with
          | false => right; simp [hres, hre, hgo]
          | true =>
            cases hinfo : (_call t parent v).info with
            | none => right; simp [hres, hre, hgo, hinfo]
            | some next =>
              rcases ih (.children next v) with hS | hS
              · left; simp [hres, hre, hgo, hinfo, hS]
              · right
                simp only [hres, hre, hgo, hinfo, hS]
                cases hr2 : (_trav t (.children next v)).2 with
                | ok =>
                  cases hce : confContainerEnd t with
                  | false => simp [hr2, hce]
                  | true =>
                    cases her : (next.binding (endContainerIns parent next
                        v)).2 with
                    | none => simp [hr2, hce, her]
                    | some e => simp [hr2, hce, her]
                | fail e => simp [hr2]
                | panicked msg => simp [hr2]
    | children next v =>
      simp only [travFuel]
      rw [_trav.eq_2]
      cases hk : v.kind
      case kArray =>
        rcases ih (.arrCh next v 0) with hS | hS
        · left; simp [hk, hS]
        · right; simp [hk, hS]
      case kSlice =>
        rcases ih (.arrCh next v 0) with hS | hS
        · left; simp [hk, hS]
        · right; simp [hk, hS]
      case kMap =>
        by_cases hsz : 0 < next.size
        · by_cases hl : 2 * (v.entriesOf.length : Int) = next.size
          · rcases ih (.mapCh next v 0) with hS | hS
            · left; simp [hk, hsz, hl, hS]
            · right; simp [hk, hsz, hl, hS]
          · right; simp [hk, hsz, hl]
        · right; simp [hk, hsz]
      case kStruct =>
        rcases ih (.structCh next v 0) with hS | hS
        · left; simp [hk, hS]
        · right; simp [hk, hS]
      case kPtr =>
        by_cases hsz : 0 < next.size
        · cases hel : v.ptrElem with
          | none => right; simp [hk, hsz, hel]
          | some e =>
            rcases ih (.node (some { next with offset := 0 }) true e) with
              hS | hS
            · left; simp [hk, hsz, hel, hS]
            · right; simp [hk, hsz, hel, hS]
        · right; simp [hk, hsz]
      all_goals (right; simp [hk])
    | arrCh next v i =>
      simp only [travFuel]
      rw [_trav.eq_3]
      by_cases hlt : (i : Int) < next.size
      · cases hel : v.elemsOf.get? i with
        | none => right; simp [hlt, hel]
        | some child =>
          rcases ih (.node (some { next with offset := (i : Int) }) true
              child) with hS | hS
          · left; simp [hlt, hel, hS]
          · simp only [hlt, hel, hS, if_true]
            cases hr2 : (_trav t (.node
                (some { next with offset := (i : Int) }) true child)).2 with
            | ok =>
              rcases ih (.arrCh next v (i + 1)) with hT | hT
              · left; simp [hlt, hr2, hT]
              · right; simp [hlt, hr2, hT]
            | fail e => right; simp [hlt, hr2]
            | panicked msg => right; simp [hlt, hr2]
      · right; simp [hlt]
    | mapCh next v i =>
      simp only [travFuel]
      rw [_trav.eq_4]
      by_cases hlt : i < v.entriesOf.length
      · cases hel : v.entriesOf.get? i with
        | none => right; simp [hlt, hel]
        | some kv =>
          rcases ih (.node (some { next with offset := 2 * (i : Int) }) true
              kv.1) with hS | hS
          · left; simp [hlt, hel, hS]
          · simp only [hlt, hel, hS, if_true]
            cases hrk : (_trav t (.node
                (some { next with offset := 2 * (i : Int) }) true kv.1)).2
              with
            | ok =>
              rcases ih (.node
                  (some { next with offset := 2 * (i : Int) + 1 }) true
                  kv.2) with hT | hT
              · left; simp [hlt, hrk, hT]
              · simp only [hrk, hT]
                cases hrv : (_trav t (.node
                    (some { next with offset := 2 * (i : Int) + 1 }) true
                    kv.2)).2 with
                | ok =>
                  rcases ih (.mapCh next v (i + 1)) with hU | hU
                  · left; simp [hlt, hrv, hU]
                  · right; simp [hlt, hrv, hU]
                | fail e => right; simp [hlt, hrv]
                | panicked msg => right; simp [hlt, hrv]
            | fail e => right; simp [hlt, hrk]
            | panicked msg => right; simp [hlt, hrk]
      · right; simp [hlt]
    | structCh next v i =>
      simp only [travFuel]
      rw [trav_structCh_eq]
      cases hfld : next.structFields.get? i with
      | none => right; simp [hfld]
      | some field =>
        by_cases hneg : field.Index < 0
        · rcases ih (.structCh next v (i + 1)) with hS | hS
          · left; simp [hfld, hneg, hS]
          · right; simp [hfld, hneg, hS]
        · cases hf : v.fieldsOf[field.Index.toNat]? with
          | none => right; simp [hfld, hneg, hf, List.get?_eq_getElem?]
          | some fv =>
            rcases ih (.node (some { next with offset := (i : Int) }) true
                fv.2) with hS | hS
            · left; simp [hfld, hneg, hf, hS, List.get?_eq_getElem?]
            · simp only [hfld, hneg, hf, hS, if_neg hneg,
                List.get?_eq_getElem?]
              cases hr2 : (_trav t (.node
                  (some { next with offset := (i : Int) }) true fv.2)).2 with
              | ok =>
                rcases ih (.structCh next v (i + 1)) with hT | hT
                · left; simp [hfld, hneg, hf, hr2, hT,
                    List.get?_eq_getElem?]
                · right; simp [hfld, hneg, hf, hr2, hT,
                    List.get?_eq_getElem?]
              | fail e => right; simp [hfld, hneg, hf, hr2,
                  List.get?_eq_getElem?]
              | panicked msg => right; simp [hfld, hneg, hf, hr2,
                  List.get?_eq_getElem?]

/-- Transport a concrete `travFuel` computation to `_trav`. -/
theorem travFuel_sound {t : Traveller} {n : Nat} {c : TravCall}
    {r : List Event × TRes} (h : travFuel t n c = some r) : _trav t c = r := by
  rcases travFuel_agrees t n c with hS | hS
  · rw [hS] at h; cases h
  · rw [hS] at h; exact Option.some.inj h

/-- Depth recorded in an event (none for property-resolution events). -/
def Event.depth? : Event → Option Nat
  | .visit d _ _ => some d
  | .call _ _ d _ _ _ _ => some d
  | .props _ _ => none

/-- Is this a ghost visit event? -/
def Event.isVisit : Event → Bool
  | .visit _ _ _ => true
  | _ => false

/-- Is this a container end notification? -/
def Event.isEndCall : Event → Bool
  | .call _ .containerEnd _ _ _ _ _ => true
  | _ => false

/-- The visit events at exactly depth `d`. -/
def visitsAt (d : Nat) (evs : List Event) : List Event :=
  evs.filter fun e =>
    match e with
    | .visit d' _ _ => d' == d
    | _ => false

/-- Every event of the list that carries a depth is at depth ≥ `d`. -/
def minDepthGE (d : Nat) (evs : List Event) : Prop :=
  ∀ e ∈ evs, ∀ k, e.depth? = some k → d ≤ k

theorem minDepthGE_append {d : Nat} {l1 l2 : List Event}
    (h1 : minDepthGE d l1) (h2 : minDepthGE d l2) :
    minDepthGE d (l1 ++ l2) := by
  intro e he k hk
  rcases List.mem_append.mp he with h | h
  · exact h1 e h k hk
  · exact h2 e h k hk

theorem minDepthGE_mono {d d' : Nat} {l : List Event} (hd : d ≤ d')
    (h : minDepthGE d' l) : minDepthGE d l :=
  fun e he k hk => le_trans hd (h e he k hk)

theorem visitsAt_append (d : Nat) (l1 l2 : List Event) :
    visitsAt d (l1 ++ l2) = visitsAt d l1 ++ visitsAt d l2 :=
  List.filter_append _ _

theorem visitsAt_nil_of_minDepthGE {d : Nat} {l : List Event}
    (h : minDepthGE (d + 1) l) : visitsAt d l = [] := by
  rw [visitsAt, List.filter_eq_nil]
  intro e he
  cases e with
  | visit d' off v =>
    have := h _ he d' rfl
    simp only [beq_iff_eq]
    omega
  | call bid form dep off sz v ret => simp
  | props ty c => simp

/-- The ghost events of a container-size computation are property
resolutions only: no visits, no calls, no depths. -/
theorem containerSizeFields_events (t : Traveller) (k : GoKind)
    (v : GoValue) :
    ∀ ev ∈ (containerSizeFields t k v).2.2,
      ev.isVisit = false ∧ ev.isEndCall = false ∧ ev.depth? = none := by
  unfold containerSizeFields _structProperties
  repeat' split
  all_goals intro ev hev
  all_goals simp_all [Event.isVisit, Event.isEndCall, Event.depth?]

/-- Every event `_call` emits is a non-visit, non-end event whose depth
(when it has one) is exactly `nextDepth parent`. -/
theorem _call_events_shape (t : Traveller) (parent : Option ParentInfo)
    (v : GoValue) :
    ∀ ev ∈ (_call t parent v).events,
      ev.isVisit = false ∧ ev.isEndCall = false ∧
      (∀ k, ev.depth? = some k → k = nextDepth parent) := by
  unfold _call
  repeat' split
  all_goals intro ev hev
  any_goals
    (simp only [CallOut.quiet, List.not_mem_nil] at hev)
  any_goals
    (simp only [List.mem_singleton] at hev
     subst hev
     refine ⟨rfl, rfl, fun k hk => ?_⟩
     simp only [callIns, startContainerIns, Event.depth?,
       Option.some.injEq] at hk
     omega)
  all_goals
    (rcases List.mem_append.mp hev with h1 | h1
     · have h2 := containerSizeFields_events t _ v ev h1
       exact ⟨h2.1, h2.2.1, fun k hk => absurd hk (by simp [h2.2.2])⟩
     · simp only [List.mem_singleton] at h1
       subst h1
       refine ⟨rfl, rfl, fun k hk => ?_⟩
       simp only [startContainerIns, Event.depth?, Option.some.injEq]
         at hk
       omega)

/-- When `_call` opens a container (`goin` with a frame), the frame is
the one built in the container branch: depth `nextDepth parent`, the
value itself, size and struct properties from `containerSizeFields`,
the kind binding of the value's kind; no re-entry; and the emitted
events are the property-resolution events followed by the start call.
-/
theorem _call_open_frame (t : Traveller) (parent : Option ParentInfo)
    (v : GoValue) (next : ParentInfo)
    (hg : (_call t parent v).goin = true)
    (hi : (_call t parent v).info = some next) :
    next.depth = nextDepth parent ∧ next.value = v ∧
    next.size = (containerSizeFields t v.kind v).1 ∧
    next.structFields = (containerSizeFields t v.kind v).2.1 ∧
    next.bid = .kindB v.kind ∧
    (_call t parent v).reEnter = false ∧
    (_call t parent v).events =
      (containerSizeFields t v.kind v).2.2 ++
        [.call (.kindB v.kind) .containerStart (nextDepth parent)
          (parentOffset parent) next.size v
          (next.binding (startContainerIns parent next v))] := by
  unfold _call at hg hi ⊢
  repeat' split at hg
  all_goals try (repeat' split at hi)
  all_goals simp_all [CallOut.quiet]
  all_goals
    (rename_i h5 h4 h3 hc hpre hfind hbe
     have hp := List.find?_some hfind
     simp only [OrderItem.matchVal, h4, Bool.and_eq_true, bne_iff_ne,
       beq_iff_eq] at hp
     split at hi
     · exact absurd hi (by simp)
     · have hnext := (Option.some.inj hi).symm
       subst hnext
       simp [hp.2, startContainerIns])

/-- Offset stored in an event. -/
def Event.offsetOf : Event → Int
  | .visit _ off _ => off
  | .call _ _ _ off _ _ _ => off
  | .props _ _ => 0

theorem minDepthGE_nil {d : Nat} : minDepthGE d [] := by
  intro e he
  cases he

theorem drop_cons_of_get? {α : Type} {l : List α} {i : Nat} {a : α}
    (h : l.get? i = some a) : l.drop i = a :: l.drop (i + 1) := by
  rcases List.get?_eq_some.mp h with ⟨hlt, hget⟩
  rw [List.drop_eq_get_cons hlt, hget]

theorem minDepthGE_call_events (t : Traveller) (parent : Option ParentInfo)
    (v : GoValue) : minDepthGE (nextDepth parent) (_call t parent v).events := by
  intro e he k hk
  have h := (_call_events_shape t parent v e he).2.2 k hk
  omega

theorem visitsAt_call_events (t : Traveller) (parent : Option ParentInfo)
    (v : GoValue) (d : Nat) : visitsAt d (_call t parent v).events = [] := by
  rw [visitsAt, List.filter_eq_nil]
  intro e he
  have h := (_call_events_shape t parent v e he).1
  cases e with
  | visit d' off w => simp [Event.isVisit] at h
  | call bid form dep off sz w ret => simp
  | props ty c => simp

theorem visitsAt_single_self (d : Nat) (off : Int) (v : GoValue) :
    visitsAt d [Event.visit d off v] = [Event.visit d off v] := by
  simp [visitsAt]

theorem visitsAt_end_event (d : Nat) (bid : BindId) (dep : Nat) (off : Int)
    (sz : Int) (v : GoValue) (ret : Bool × Option String) :
    visitsAt d [Event.call bid .containerEnd dep off sz v ret] = [] := by
  simp [visitsAt]

theorem minDepthGE_single_call {d dep : Nat} (h : d ≤ dep) (bid : BindId)
    (form : CallForm) (off : Int) (sz : Int) (v : GoValue)
    (ret : Bool × Option String) :
    minDepthGE d [Event.call bid form dep off sz v ret] := by
  intro e he k hk
  simp only [List.mem_singleton] at he
  subst he
  simp only [Event.depth?, Option.some.injEq] at hk
  omega

/-- The trace-shape invariant of the walker: every event of a node call
sits at depth ≥ the node's depth and the node's own visit event is the
only visit at exactly that depth; every event below an open container
frame sits strictly deeper than the frame; a successful map child loop
visits key then value of each remaining entry at offsets `2i`, `2i+1`;
a successful struct child loop visits exactly the resolved properties
with non-negative storage index, at their positions in the property
list as offsets. -/
def travDepthProp (c : TravCall) (res : List Event × TRes) : Prop :=
  match c with
  | .node parent ve v =>
    minDepthGE (nextDepth parent) res.1 ∧
    visitsAt (nextDepth parent) res.1 =
      (if ve then [.visit (nextDepth parent) (parentOffset parent) v]
       else [])
  | .children next _ => minDepthGE (next.depth + 1) res.1
  | .arrCh next _ _ => minDepthGE (next.depth + 1) res.1
  | .mapCh next v i =>
    minDepthGE (next.depth + 1) res.1 ∧
    (res.2 = .ok → visitsAt (next.depth + 1) res.1 =
      (List.enumFrom i (v.entriesOf.drop i)).flatMap (fun p =>
        [.visit (next.depth + 1) (2 * (p.1 : Int)) p.2.1,
         .visit (next.depth + 1) (2 * (p.1 : Int) + 1) p.2.2]))
  | .structCh next v i =>
    minDepthGE (next.depth + 1) res.1 ∧
    (res.2 = .ok → (visitsAt (next.depth + 1) res.1).map Event.offsetOf =
      ((List.enumFrom i (next.structFields.drop i)).filter
        (fun p => decide (0 ≤ p.2.Index))).map (fun p => (p.1 : Int)))

theorem minDepthGE_ev0 (d : Nat) (ve : Bool) (off : Int) (v : GoValue) :
    minDepthGE d (if ve then [Event.visit d off v] else []) := by
  cases ve
  · exact minDepthGE_nil
  · intro e he k hk
    simp only [if_true, List.mem_singleton] at he
    subst he
    simp only [Event.depth?, Option.some.injEq] at hk
    omega

theorem visitsAt_ev0 (d : Nat) (ve : Bool) (off : Int) (v : GoValue) :
    visitsAt d (if ve then [Event.visit d off v] else []) =
      (if ve then [Event.visit d off v] else []) := by
  cases ve <;> simp [visitsAt]

theorem trav_master (t : Traveller) :
    ∀ c, travDepthProp c (_trav t c) := by
  intro c
  induction c using _trav.induct t with
  | case1 parent ve v co hres hre nv hnv ih =>
    have hres' : (_call t parent v).res = .ok := hres
    have hre' : (_call t parent v).reEnter = true := hre
    have hnv' : (_call t parent v).newVal = some nv := hnv
    simp only [travDepthProp] at ih ⊢
    rw [trav_node_eq]
    simp only [hres', hre', if_true, hnv']
    constructor
    · exact minDepthGE_append (minDepthGE_append
        (minDepthGE_ev0 _ _ _ _) (minDepthGE_call_events t parent v)) ih.1
    · rw [visitsAt_append, visitsAt_append, visitsAt_call_events,
        visitsAt_ev0, ih.2]
      simp
  | case2 parent ve v co hres hre hnv =>
    have hres' : (_call t parent v).res = .ok := hres
    have hre' : (_call t parent v).reEnter = true := hre
    have hnv' : (_call t parent v).newVal = none := hnv
    simp only [travDepthProp]
    rw [trav_node_eq]
    simp only [hres', hre', if_true, hnv']
    constructor
    · exact minDepthGE_append (minDepthGE_ev0 _ _ _ _)
        (minDepthGE_call_events t parent v)
    · rw [visitsAt_append, visitsAt_call_events, visitsAt_ev0]
      simp
  | case3 parent ve v co hres hre hgo next hinfo r hcok hce inp er e her ih =>
    have hres' : (_call t parent v).res = .ok := hres
    have hre' : ¬(_call t parent v).reEnter = true := hre
    have hgo' : (_call t parent v).goin = true := hgo
    have hinfo' : (_call t parent v).info = some next := hinfo
    have hcok' : (_trav t (.children next v)).2 = .ok := hcok
    have her' : (next.binding (endContainerIns parent next v)).2 = some e :=
      her
    have hfr := _call_open_frame t parent v next hgo' hinfo'
    simp only [travDepthProp] at ih ⊢
    rw [trav_node_eq]
    simp only [hres', hre', hgo', hinfo', hcok', hce, her', if_true,
      if_false, Bool.false_eq_true]
    constructor
    · refine minDepthGE_append (minDepthGE_append (minDepthGE_append
        (minDepthGE_ev0 _ _ _ _) (minDepthGE_call_events t parent v))
        (minDepthGE_mono (by omega) (hfr.1 ▸ ih))) ?_
      exact minDepthGE_single_call (by simp [endContainerIns, hfr.1]) _ _ _
        _ _ _
    · rw [visitsAt_append, visitsAt_append, visitsAt_append,
        visitsAt_call_events, visitsAt_ev0, visitsAt_end_event,
        visitsAt_nil_of_minDepthGE (hfr.1 ▸ ih)]
      simp
  | case4 parent ve v co hres hre hgo next hinfo r hcok hce inp er her ih =>
    have hres' : (_call t parent v).res = .ok := hres
    have hre' : ¬(_call t parent v).reEnter = true := hre
    have hgo' : (_call t parent v).goin = true := hgo
    have hinfo' : (_call t parent v).info = some next := hinfo
    have hcok' : (_trav t (.children next v)).2 = .ok := hcok
    have her' : (next.binding (endContainerIns parent next v)).2 = none :=
      her
    have hfr := _call_open_frame t parent v next hgo' hinfo'
    simp only [travDepthProp] at ih ⊢
    rw [trav_node_eq]
    simp only [hres', hre', hgo', hinfo', hcok', hce, her', if_true,
      if_false, Bool.false_eq_true]
    constructor
    · refine minDepthGE_append (minDepthGE_append (minDepthGE_append
        (minDepthGE_ev0 _ _ _ _) (minDepthGE_call_events t parent v))
        (minDepthGE_mono (by omega) (hfr.1 ▸ ih))) ?_
      exact minDepthGE_single_call (by simp [endContainerIns, hfr.1]) _ _ _
        _ _ _
    · rw [visitsAt_append, visitsAt_append, visitsAt_append,
        visitsAt_call_events, visitsAt_ev0, visitsAt_end_event,
        visitsAt_nil_of_minDepthGE (hfr.1 ▸ ih)]
      simp
  | case5 parent ve v co hres hre hgo next hinfo r hcok hce ih =>
    have hres' : (_call t parent v).res = .ok := hres
    have hre' : ¬(_call t parent v).reEnter = true := hre
    have hgo' : (_call t parent v).goin = true := hgo
    have hinfo' : (_call t parent v).info = some next := hinfo
    have hcok' : (_trav t (.children next v)).2 = .ok := hcok
    have hfr := _call_open_frame t parent v next hgo' hinfo'
    simp only [travDepthProp] at ih ⊢
    rw [trav_node_eq]
    simp only [hres', hre', hgo', hinfo', hcok', hce, if_true, if_false, Bool.false_eq_true]
    constructor
    · exact minDepthGE_append (minDepthGE_append
        (minDepthGE_ev0 _ _ _ _) (minDepthGE_call_events t parent v))
        (minDepthGE_mono (by omega) (hfr.1 ▸ ih))
    · rw [visitsAt_append, visitsAt_append, visitsAt_call_events,
        visitsAt_ev0, visitsAt_nil_of_minDepthGE (hfr.1 ▸ ih)]
      simp
  | case6 parent ve v co hres hre hgo next hinfo r hcnok ih =>
    have hres' : (_call t parent v).res = .ok := hres
    have hre' : ¬(_call t parent v).reEnter = true := hre
    have hgo' : (_call t parent v).goin = true := hgo
    have hinfo' : (_call t parent v).info = some next := hinfo
    have hfr := _call_open_frame t parent v next hgo' hinfo'
    simp only [travDepthProp] at ih ⊢
    rw [trav_node_eq]
    simp only [hres', hre', hgo', hinfo', if_true, if_false, Bool.false_eq_true]
    cases hc2 : (_trav t (.children next v)).2 with
    | ok => exact absurd hc2 hcnok
    | fail e =>
      constructor
      · exact minDepthGE_append (minDepthGE_append
          (minDepthGE_ev0 _ _ _ _) (minDepthGE_call_events t parent v))
          (minDepthGE_mono (by omega) (hfr.1 ▸ ih))
      · rw [visitsAt_append, visitsAt_append, visitsAt_call_events,
          visitsAt_ev0, visitsAt_nil_of_minDepthGE (hfr.1 ▸ ih)]
        simp
    | panicked msg =>
      constructor
      · exact minDepthGE_append (minDepthGE_append
          (minDepthGE_ev0 _ _ _ _) (minDepthGE_call_events t parent v))
          (minDepthGE_mono (by omega) (hfr.1 ▸ ih))
      · rw [visitsAt_append, visitsAt_append, visitsAt_call_events,
          visitsAt_ev0, visitsAt_nil_of_minDepthGE (hfr.1 ▸ ih)]
        simp
  | case7 parent ve v co hres hre hgo hinfo =>
    have hres' : (_call t parent v).res = .ok := hres
    have hre' : ¬(_call t parent v).reEnter = true := hre
    have hgo' : (_call t parent v).goin = true := hgo
    have hinfo' : (_call t parent v).info = none := hinfo
    simp only [travDepthProp]
    rw [trav_node_eq]
    simp only [hres', hre', hgo', hinfo', if_true, if_false, Bool.false_eq_true]
    constructor
    · exact minDepthGE_append (minDepthGE_ev0 _ _ _ _)
        (minDepthGE_call_events t parent v)
    · rw [visitsAt_append, visitsAt_call_events, visitsAt_ev0]
      simp
  | case8 parent ve v co hres hre hgo =>
    have hres' : (_call t parent v).res = .ok := hres
    have hre' : ¬(_call t parent v).reEnter = true := hre
    have hgo' : ¬(_call t parent v).goin = true := hgo
    simp only [travDepthProp]
    rw [trav_node_eq]
    simp only [hres', hre', hgo', if_true, if_false, Bool.false_eq_true]
    constructor
    · exact minDepthGE_append (minDepthGE_ev0 _ _ _ _)
        (minDepthGE_call_events t parent v)
    · rw [visitsAt_append, visitsAt_call_events, visitsAt_ev0]
      simp
  | case9 parent ve v co hxres =>
    have hx : (_call t parent v).res = .ok → False := hxres
    simp only [travDepthProp]
    rw [trav_node_eq]
    cases hres2 : (_call t parent v).res with
    | ok => exact absurd hres2 hx
    | fail e =>
      constructor
      · exact minDepthGE_append (minDepthGE_ev0 _ _ _ _)
          (minDepthGE_call_events t parent v)
      · rw [visitsAt_append, visitsAt_call_events, visitsAt_ev0]
        simp
    | panicked msg =>
      constructor
      · exact minDepthGE_append (minDepthGE_ev0 _ _ _ _)
          (minDepthGE_call_events t parent v)
      · rw [visitsAt_append, visitsAt_call_events, visitsAt_ev0]
        simp
  | case10 next v hk ih =>
    simp only [travDepthProp] at ih ⊢
    rw [trav_children_eq]
    simp only [hk]
    exact ih
  | case11 next v hk ih =>
    simp only [travDepthProp] at ih ⊢
    rw [trav_children_eq]
    simp only [hk]
    exact ih
  | case12 next v hk hsz hlen ih =>
    simp only [travDepthProp] at ih ⊢
    rw [trav_children_eq]
    simp only [hk, if_pos hsz, if_pos hlen]
    exact ih.1
  | case13 next v hk hsz hlen =>
    simp only [travDepthProp]
    rw [trav_children_eq]
    simp only [hk, if_pos hsz, if_neg hlen]
    exact minDepthGE_nil
  | case14 next v hk hsz =>
    simp only [travDepthProp]
    rw [trav_children_eq]
    simp only [hk, if_neg hsz]
    exact minDepthGE_nil
  | case15 next v hk ih =>
    simp only [travDepthProp] at ih ⊢
    rw [trav_children_eq]
    simp only [hk]
    exact ih.1
  | case16 next v hk hsz nv hnv ih =>
    simp only [travDepthProp] at ih ⊢
    rw [trav_children_eq]
    simp only [hk, if_pos hsz, hnv]
    simp only [nextDepth] at ih
    exact ih.1
  | case17 next v hk hsz hnv =>
    simp only [travDepthProp]
    rw [trav_children_eq]
    simp only [hk, if_pos hsz, hnv]
    exact minDepthGE_nil
  | case18 next v hk hsz =>
    simp only [travDepthProp]
    rw [trav_children_eq]
    simp only [hk, if_neg hsz]
    exact minDepthGE_nil
  | case19 next v hA hS hM hSt hP =>
    simp only [travDepthProp]
    rw [trav_children_eq]
    cases hk2 : v.kind
    case kArray => exact absurd hk2 hA
    case kSlice => exact absurd hk2 hS
    case kMap => exact absurd hk2 hM
    case kStruct => exact absurd hk2 hSt
    case kPtr => exact absurd hk2 hP
    all_goals exact minDepthGE_nil
  | case20 next v i hlt nv hnv r hrok ih2 ih1 =>
    have hrok' : (_trav t (.node (some { next with offset := (i : Int) })
        true nv)).2 = .ok := hrok
    simp only [travDepthProp] at ih1 ih2 ⊢
    rw [trav_arrCh_eq]
    simp only [if_pos hlt, hnv, hrok']
    simp only [nextDepth] at ih2
    exact minDepthGE_append ih2.1 ih1
  | case21 next v i hlt nv hnv r hrnok ih =>
    simp only [travDepthProp] at ih ⊢
    rw [trav_arrCh_eq]
    simp only [if_pos hlt, hnv]
    simp only [nextDepth] at ih
    cases hr2 : (_trav t (.node (some { next with offset := (i : Int) })
        true nv)).2 with
    | ok => exact absurd hr2 hrnok
    | fail e => exact ih.1
    | panicked msg => exact ih.1
  | case22 next v i hlt hnv =>
    simp only [travDepthProp]
    rw [trav_arrCh_eq]
    simp only [if_pos hlt, hnv]
    exact minDepthGE_nil
  | case23 next v i hlt =>
    simp only [travDepthProp]
    rw [trav_arrCh_eq]
    simp only [if_neg hlt]
    exact minDepthGE_nil
  | case24 next v i hlt kv hent rk hkok rv hvok ih3 ih2 ih1 =>
    have hkok' : (_trav t (.node
        (some { next with offset := 2 * (i : Int) }) true kv.1)).2 = .ok :=
      hkok
    have hvok' : (_trav t (.node
        (some { next with offset := 2 * (i : Int) + 1 }) true kv.2)).2 =
        .ok := hvok
    simp only [travDepthProp] at ih1 ih2 ih3 ⊢
    rw [trav_mapCh_eq]
    simp only [if_pos hlt, hent, hkok', hvok']
    simp only [nextDepth, parentOffset] at ih2 ih3
    constructor
    · exact minDepthGE_append (minDepthGE_append ih3.1 ih2.1) ih1.1
    · intro hok
      rw [visitsAt_append, visitsAt_append, ih3.2, ih2.2, ih1.2 hok,
        drop_cons_of_get? hent, List.enumFrom_cons, List.cons_bind]
      simp
  | case25 next v i hlt kv hent rk hkok rv hvnok ih2 ih1 =>
    have hkok' : (_trav t (.node
        (some { next with offset := 2 * (i : Int) }) true kv.1)).2 = .ok :=
      hkok
    simp only [travDepthProp] at ih1 ih2 ⊢
    rw [trav_mapCh_eq]
    simp only [if_pos hlt, hent, hkok']
    simp only [nextDepth, parentOffset] at ih1 ih2
    cases hrv : (_trav t (.node
        (some { next with offset := 2 * (i : Int) + 1 }) true kv.2)).2 with
    | ok => exact absurd hrv hvnok
    | fail e =>
      refine ⟨minDepthGE_append ih2.1 ih1.1, fun hok => absurd hok (by
        simp)⟩
    | panicked msg =>
      refine ⟨minDepthGE_append ih2.1 ih1.1, fun hok => absurd hok (by
        simp)⟩
  | case26 next v i hlt kv hent rk hknok ih =>
    simp only [travDepthProp] at ih ⊢
    rw [trav_mapCh_eq]
    simp only [if_pos hlt, hent]
    simp only [nextDepth, parentOffset] at ih
    cases hrk : (_trav t (.node
        (some { next with offset := 2 * (i : Int) }) true kv.1)).2 with
    | ok => exact absurd hrk hknok
    | fail e =>
      exact ⟨ih.1, fun hok => absurd hok (by simp)⟩
    | panicked msg =>
      exact ⟨ih.1, fun hok => absurd hok (by simp)⟩
  | case27 next v i hlt hent =>
    simp only [travDepthProp]
    rw [trav_mapCh_eq]
    simp only [if_pos hlt, hent]
    exact ⟨minDepthGE_nil, fun hok => absurd hok (by simp)⟩
  | case28 next v i hlt =>
    simp only [travDepthProp]
    rw [trav_mapCh_eq]
    simp only [if_neg hlt]
    refine ⟨minDepthGE_nil, fun _ => ?_⟩
    rw [List.drop_eq_nil_of_le (by omega)]
    simp [visitsAt]
  | case29 next v i field hfld hneg ih =>
    simp only [travDepthProp] at ih ⊢
    rw [trav_structCh_eq]
    simp only [hfld, if_pos hneg]
    refine ⟨ih.1, fun hok => ?_⟩
    rw [ih.2 hok, drop_cons_of_get? hfld, List.enumFrom_cons]
    have : decide (0 ≤ field.Index) = false := by
      simp only [decide_eq_false_iff_not]
      omega
    simp [this]
  | case30 next v i field hfld hneg fv hf r hrok ih2 ih1 =>
    have hrok' : (_trav t (.node (some { next with offset := (i : Int) })
        true fv.2)).2 = .ok := hrok
    simp only [travDepthProp] at ih1 ih2 ⊢
    rw [trav_structCh_eq]
    simp only [hfld, if_neg hneg, hf, hrok']
    simp only [nextDepth, parentOffset] at ih2
    refine ⟨minDepthGE_append ih2.1 ih1.1, fun hok => ?_⟩
    rw [visitsAt_append, ih2.2, drop_cons_of_get? hfld,
      List.enumFrom_cons, List.map_append, ih1.2 hok]
    have : decide (0 ≤ field.Index) = true := by
      simp only [decide_eq_true_eq]
      omega
    simp [this, Event.offsetOf]
  | case31 next v i field hfld hneg fv hf r hrnok ih =>
    simp only [travDepthProp] at ih ⊢
    rw [trav_structCh_eq]
    simp only [hfld, if_neg hneg, hf]
    simp only [nextDepth, parentOffset] at ih
    cases hr2 : (_trav t (.node (some { next with offset := (i : Int) })
        true fv.2)).2 with
    | ok => exact absurd hr2 hrnok
    | fail e =>
      exact ⟨ih.1, fun hok => absurd hok (by simp)⟩
    | panicked msg =>
      exact ⟨ih.1, fun hok => absurd hok (by simp)⟩
  | case32 next v i field hfld hneg hf =>
    simp only [travDepthProp]
    rw [trav_structCh_eq]
    simp only [hfld, if_neg hneg, hf]
    exact ⟨minDepthGE_nil, fun hok => absurd hok (by simp)⟩
  | case33 next v i hfld =>
    simp only [travDepthProp]
    rw [trav_structCh_eq]
    simp only [hfld]
    refine ⟨minDepthGE_nil, fun _ => ?_⟩
    have hlen : next.structFields.length ≤ i := by
      by_contra hcon
      push_neg at hcon
      rcases List.get?_eq_some.mpr ⟨hcon, rfl⟩ with h2
      rw [hfld] at h2
      cases h2
    rw [List.drop_eq_nil_of_le hlen]
    simp [visitsAt]

/-- The error (with the form of the call) returned by the callback an
event records, if any. -/
def Event.retErr? : Event → Option (CallForm × String)
  | .call _ form _ _ _ _ (_, some e) => some (form, e)
  | _ => none

/-- No event of the list records a callback error return. -/
def cleanEvents (evs : List Event) : Prop := ∀ ev ∈ evs, ev.retErr? = none

/-- How `_traverse` turns a callback error into its own result: an error
from a container end call is wrapped (`traversal.go` line 351), every
other callback error is propagated verbatim. -/
def errResOf (form : CallForm) (e : String) : TRes :=
  match form with
  | .containerEnd => .fail ("call container end failed: " ++ e)
  | _ => .fail e

/-- Abort discipline of a traversal result: either no callback returned
an error, or the event of the single erring callback is the last event
of the trace and the result is that error, wrapped exactly when the
call was a container end notification. -/
def abortInv (res : List Event × TRes) : Prop :=
  cleanEvents res.1 ∨
  ∃ pre ev form e, res.1 = pre ++ [ev] ∧ cleanEvents pre ∧
    ev.retErr? = some (form, e) ∧ res.2 = errResOf form e

theorem cleanEvents_nil : cleanEvents [] := by
  intro ev hev
  cases hev

theorem cleanEvents_append {l1 l2 : List Event} (h1 : cleanEvents l1)
    (h2 : cleanEvents l2) : cleanEvents (l1 ++ l2) := by
  intro ev hev
  rcases List.mem_append.mp hev with h | h
  · exact h1 ev h
  · exact h2 ev h

theorem cleanEvents_ev0 (d : Nat) (ve : Bool) (off : Int) (v : GoValue) :
    cleanEvents (if ve then [Event.visit d off v] else []) := by
  cases ve
  · exact cleanEvents_nil
  · intro ev hev
    simp only [if_true, List.mem_singleton] at hev
    subst hev
    rfl

theorem errResOf_ne_ok (form : CallForm) (e : String) :
    errResOf form e ≠ .ok := by
  cases form <;> simp [errResOf]

theorem abortInv_ok_clean {res : List Event × TRes} (h : abortInv res)
    (hok : res.2 = .ok) : cleanEvents res.1 := by
  rcases h with h | ⟨pre, ev, form, e, hsplit, hpre, herr, hres⟩
  · exact h
  · rw [hok] at hres
    exact absurd hres.symm (errResOf_ne_ok form e)

theorem abortInv_prepend {l : List Event} {res : List Event × TRes}
    (hl : cleanEvents l) (h : abortInv res) :
    abortInv (l ++ res.1, res.2) := by
  rcases h with h | ⟨pre, ev, form, e, hsplit, hpre, herr, hres⟩
  · exact Or.inl (cleanEvents_append hl h)
  · refine Or.inr ⟨l ++ pre, ev, form, e, ?_, cleanEvents_append hl hpre,
      herr, hres⟩
    rw [hsplit, List.append_assoc]

theorem abortInv_end (pre : List Event) (ev : Event) (form : CallForm)
    (e : String) (hpre : cleanEvents pre) (herr : ev.retErr? = some (form, e)) :
    abortInv (pre ++ [ev], errResOf form e) :=
  Or.inr ⟨pre, ev, form, e, rfl, hpre, herr, rfl⟩

theorem retErr?_none_of_depth?_none {ev : Event} (h : ev.depth? = none) :
    ev.retErr? = none := by
  cases ev with
  | visit d off v => rfl
  | call bid form dep off sz v ret => cases h
  | props ty c => rfl

theorem cleanEvents_csf (t : Traveller) (k : GoKind) (v : GoValue) :
    cleanEvents (containerSizeFields t k v).2.2 := fun ev hev =>
  retErr?_none_of_depth?_none (containerSizeFields_events t k v ev hev).2.2

theorem retErr?_of_snd_none {bid : BindId} {form : CallForm} {d : Nat}
    {off sz : Int} {v : GoValue} {r : Bool × Option String}
    (h : r.2 = none) :
    (Event.call bid form d off sz v r).retErr? = none := by
  obtain ⟨r1, r2⟩ := r
  cases h
  rfl

theorem retErr?_of_snd_some {bid : BindId} {form : CallForm} {d : Nat}
    {off sz : Int} {v : GoValue} {r : Bool × Option String} {e : String}
    (h : r.2 = some e) :
    (Event.call bid form d off sz v r).retErr? = some (form, e) := by
  obtain ⟨r1, r2⟩ := r
  cases h
  rfl

/-- Abort discipline of `_call`: either its events are clean, or the
last event is the single erring callback, the call is not a container
end, and the result is that error verbatim. -/
theorem _call_inv (t : Traveller) (parent : Option ParentInfo)
    (v : GoValue) :
    cleanEvents (_call t parent v).events ∨
    ∃ pre ev form e, (_call t parent v).events = pre ++ [ev] ∧
      cleanEvents pre ∧ ev.retErr? = some (form, e) ∧
      form ≠ .containerEnd ∧ (_call t parent v).res = .fail e := by
  unfold _call
  repeat' split
  all_goals simp only [CallOut.quiet]
  any_goals (refine Or.inl ?_; exact cleanEvents_nil)
  all_goals try split
  · rename_i e heq
    exact Or.inr ⟨[], _, .plain, _, rfl, cleanEvents_nil,
      retErr?_of_snd_some heq, fun h => CallForm.noConfusion h, rfl⟩
  · rename_i heq
    refine Or.inl ?_
    intro ev hev
    simp only [List.mem_singleton] at hev
    subst hev
    exact retErr?_of_snd_none heq
  · rename_i e heq
    exact Or.inr ⟨[], _, .plain, _, rfl, cleanEvents_nil,
      retErr?_of_snd_some heq, fun h => CallForm.noConfusion h, rfl⟩
  · rename_i heq
    refine Or.inl ?_
    intro ev hev
    simp only [List.mem_singleton] at hev
    subst hev
    exact retErr?_of_snd_none heq
  · rename_i e heq
    exact Or.inr ⟨(containerSizeFields t _ v).2.2, _, .containerStart, _,
      rfl, cleanEvents_csf t _ v, retErr?_of_snd_some heq,
      fun h => CallForm.noConfusion h, rfl⟩
  · rename_i heq
    refine Or.inl (cleanEvents_append (cleanEvents_csf t _ v) ?_)
    intro ev hev
    simp only [List.mem_singleton] at hev
    subst hev
    exact retErr?_of_snd_none heq
  · rename_i e heq
    exact Or.inr ⟨[], _, .plain, _, rfl, cleanEvents_nil,
      retErr?_of_snd_some heq, fun h => CallForm.noConfusion h, rfl⟩
  · rename_i heq
    refine Or.inl ?_
    intro ev hev
    simp only [List.mem_singleton] at hev
    subst hev
    exact retErr?_of_snd_none heq
  · rename_i e heq
    exact Or.inr ⟨[], _, .plain, _, rfl, cleanEvents_nil,
      retErr?_of_snd_some heq, fun h => CallForm.noConfusion h, rfl⟩
  · rename_i heq
    refine Or.inl ?_
    intro ev hev
    simp only [List.mem_singleton] at hev
    subst hev
    exact retErr?_of_snd_none heq

theorem cleanEvents_single_none (bid : BindId) (form : CallForm) (d : Nat)
    (off sz : Int) (v : GoValue) {r : Bool × Option String}
    (h : r.2 = none) :
    cleanEvents [Event.call bid form d off sz v r] := by
  intro ev hev
  simp only [List.mem_singleton] at hev
  subst hev
  exact retErr?_of_snd_none h

theorem _call_clean_of_ok (t : Traveller) (parent : Option ParentInfo)
    (v : GoValue) (h : (_call t parent v).res = .ok) :
    cleanEvents (_call t parent v).events := by
  rcases _call_inv t parent v with hc |
    ⟨pre, ev, form, e, hsplit, hpre, herr, hform, hres⟩
  · exact hc
  · rw [h] at hres
    cases hres

theorem _call_clean_of_panicked (t : Traveller) (parent : Option ParentInfo)
    (v : GoValue) (msg : String)
    (h : (_call t parent v).res = .panicked msg) :
    cleanEvents (_call t parent v).events := by
  rcases _call_inv t parent v with hc |
    ⟨pre, ev, form, e, hsplit, hpre, herr, hform, hres⟩
  · exact hc
  · rw [h] at hres
    cases hres

/-- Abort discipline of the walker: on every call either no callback of
the run returned an error, or the erring callback's event is the last
event of the trace and the traversal result is that error — wrapped
exactly when the call was a container end notification. -/
theorem trav_abort (t : Traveller) : ∀ c, abortInv (_trav t c) := by
  intro c
  induction c using _trav.induct t with
  | case1 parent ve v co hres hre nv hnv ih =>
    have hres' : (_call t parent v).res = .ok := hres
    have hre' : (_call t parent v).reEnter = true := hre
    have hnv' : (_call t parent v).newVal = some nv := hnv
    rw [trav_node_eq]
    simp only [hres', hre', if_true, hnv']
    exact abortInv_prepend (cleanEvents_append (cleanEvents_ev0 _ _ _ _)
      (_call_clean_of_ok t parent v hres')) ih
  | case2 parent ve v co hres hre hnv =>
    have hres' : (_call t parent v).res = .ok := hres
    have hre' : (_call t parent v).reEnter = true := hre
    have hnv' : (_call t parent v).newVal = none := hnv
    rw [trav_node_eq]
    simp only [hres', hre', if_true, hnv']
    exact Or.inl (cleanEvents_append (cleanEvents_ev0 _ _ _ _)
      (_call_clean_of_ok t parent v hres'))
  | case3 parent ve v co hres hre hgo next hinfo r hcok hce inp er e her ih =>
    have hres' : (_call t parent v).res = .ok := hres
    have hre' : ¬(_call t parent v).reEnter = true := hre
    have hgo' : (_call t parent v).goin = true := hgo
    have hinfo' : (_call t parent v).info = some next := hinfo
    have hcok' : (_trav t (.children next v)).2 = .ok := hcok
    have her' : (next.binding (endContainerIns parent next v)).2 = some e :=
      her
    rw [trav_node_eq]
    simp only [hres', hre', hgo', hinfo', hcok', hce, her', if_true,
      if_false, Bool.false_eq_true]
    refine Or.inr ⟨_, _, .containerEnd, e, rfl, ?_,
      retErr?_of_snd_some her', rfl⟩
    exact cleanEvents_append (cleanEvents_append (cleanEvents_ev0 _ _ _ _)
      (_call_clean_of_ok t parent v hres')) (abortInv_ok_clean ih hcok')
  | case4 parent ve v co hres hre hgo next hinfo r hcok hce inp er her ih =>
    have hres' : (_call t parent v).res = .ok := hres
    have hre' : ¬(_call t parent v).reEnter = true := hre
    have hgo' : (_call t parent v).goin = true := hgo
    have hinfo' : (_call t parent v).info = some next := hinfo
    have hcok' : (_trav t (.children next v)).2 = .ok := hcok
    have her' : (next.binding (endContainerIns parent next v)).2 = none :=
      her
    rw [trav_node_eq]
    simp only [hres', hre', hgo', hinfo', hcok', hce, her', if_true,
      if_false, Bool.false_eq_true]
    refine Or.inl (cleanEvents_append ?_
      (cleanEvents_single_none _ _ _ _ _ _ her'))
    exact cleanEvents_append (cleanEvents_append (cleanEvents_ev0 _ _ _ _)
      (_call_clean_of_ok t parent v hres')) (abortInv_ok_clean ih hcok')
  | case5 parent ve v co hres hre hgo next hinfo r hcok hce ih =>
    have hres' : (_call t parent v).res = .ok := hres
    have hre' : ¬(_call t parent v).reEnter = true := hre
    have hgo' : (_call t parent v).goin = true := hgo
    have hinfo' : (_call t parent v).info = some next := hinfo
    have hcok' : (_trav t (.children next v)).2 = .ok := hcok
    rw [trav_node_eq]
    simp only [hres', hre', hgo', hinfo', hcok', hce, if_true, if_false,
      Bool.false_eq_true]
    exact Or.inl (cleanEvents_append (cleanEvents_append
      (cleanEvents_ev0 _ _ _ _) (_call_clean_of_ok t parent v hres'))
      (abortInv_ok_clean ih hcok'))
  | case6 parent ve v co hres hre hgo next hinfo r hcnok ih =>
    have hres' : (_call t parent v).res = .ok := hres
    have hre' : ¬(_call t parent v).reEnter = true := hre
    have hgo' : (_call t parent v).goin = true := hgo
    have hinfo' : (_call t parent v).info = some next := hinfo
    rw [trav_node_eq]
    simp only [hres', hre', hgo', hinfo', if_true, if_false,
      Bool.false_eq_true]
    cases hc2 : (_trav t (.children next v)).2 with
    | ok => exact absurd hc2 hcnok
    | fail e =>
      have h2 := abortInv_prepend (cleanEvents_append
        (cleanEvents_ev0 (nextDepth parent) ve (parentOffset parent) v)
        (_call_clean_of_ok t parent v hres')) ih
      rw [hc2] at h2
      exact h2
    | panicked msg =>
      have h2 := abortInv_prepend (cleanEvents_append
        (cleanEvents_ev0 (nextDepth parent) ve (parentOffset parent) v)
        (_call_clean_of_ok t parent v hres')) ih
      rw [hc2] at h2
      exact h2
  | case7 parent ve v co hres hre hgo hinfo =>
    have hres' : (_call t parent v).res = .ok := hres
    have hre' : ¬(_call t parent v).reEnter = true := hre
    have hgo' : (_call t parent v).goin = true := hgo
    have hinfo' : (_call t parent v).info = none := hinfo
    rw [trav_node_eq]
    simp only [hres', hre', hgo', hinfo', if_true, if_false,
      Bool.false_eq_true]
    exact Or.inl (cleanEvents_append (cleanEvents_ev0 _ _ _ _)
      (_call_clean_of_ok t parent v hres'))
  | case8 parent ve v co hres hre hgo =>
    have hres' : (_call t parent v).res = .ok := hres
    have hre' : ¬(_call t parent v).reEnter = true := hre
    have hgo' : ¬(_call t parent v).goin = true := hgo
    rw [trav_node_eq]
    simp only [hres', hre', hgo', if_true, if_false, Bool.false_eq_true]
    exact Or.inl (cleanEvents_append (cleanEvents_ev0 _ _ _ _)
      (_call_clean_of_ok t parent v hres'))
  | case9 parent ve v co hxres =>
    have hx : (_call t parent v).res = .ok → False := hxres
    rw [trav_node_eq]
    cases hres2 : (_call t parent v).res with
    | ok => exact absurd hres2 hx
    | panicked msg =>
      simp only [hres2]
      exact Or.inl (cleanEvents_append (cleanEvents_ev0 _ _ _ _)
        (_call_clean_of_panicked t parent v msg hres2))
    | fail e =>
      simp only [hres2]
      rcases _call_inv t parent v with hc |
        ⟨pre, ev, form, e2, hsplit, hpre, herr, hform, hres3⟩
      · exact Or.inl (cleanEvents_append (cleanEvents_ev0 _ _ _ _) hc)
      · have he : e2 = e := by
          rw [hres2] at hres3
          injection hres3 with h5
          exact h5.symm
        subst he
        refine Or.inr ⟨(if ve then [.visit (nextDepth parent)
          (parentOffset parent) v] else []) ++ pre, ev, form, e2, ?_,
          cleanEvents_append (cleanEvents_ev0 _ _ _ _) hpre, herr, ?_⟩
        · rw [hsplit, List.append_assoc]
        · cases form with
          | plain => rfl
          | containerStart => rfl
          | containerEnd => exact absurd rfl hform
  | case10 next v hk ih =>
    rw [trav_children_eq]
    simp only [hk]
    exact ih
  | case11 next v hk ih =>
    rw [trav_children_eq]
    simp only [hk]
    exact ih
  | case12 next v hk hsz hlen ih =>
    rw [trav_children_eq]
    simp only [hk, if_pos hsz, if_pos hlen]
    exact ih
  | case13 next v hk hsz hlen =>
    rw [trav_children_eq]
    simp only [hk, if_pos hsz, if_neg hlen]
    exact Or.inl cleanEvents_nil
  | case14 next v hk hsz =>
    rw [trav_children_eq]
    simp only [hk, if_neg hsz]
    exact Or.inl cleanEvents_nil
  | case15 next v hk ih =>
    rw [trav_children_eq]
    simp only [hk]
    exact ih
  | case16 next v hk hsz nv hnv ih =>
    rw [trav_children_eq]
    simp only [hk, if_pos hsz, hnv]
    exact ih
  | case17 next v hk hsz hnv =>
    rw [trav_children_eq]
    simp only [hk, if_pos hsz, hnv]
    exact Or.inl cleanEvents_nil
  | case18 next v hk hsz =>
    rw [trav_children_eq]
    simp only [hk, if_neg hsz]
    exact Or.inl cleanEvents_nil
  | case19 next v hA hS hM hSt hP =>
    rw [trav_children_eq]
    cases hk2 : v.kind
    case kArray => exact absurd hk2 hA
    case kSlice => exact absurd hk2 hS
    case kMap => exact absurd hk2 hM
    case kStruct => exact absurd hk2 hSt
    case kPtr => exact absurd hk2 hP
    all_goals exact Or.inl cleanEvents_nil
  | case20 next v i hlt nv hnv r hrok ih2 ih1 =>
    have hrok' : (_trav t (.node (some { next with offset := (i : Int) })
        true nv)).2 = .ok := hrok
    rw [trav_arrCh_eq]
    simp only [if_pos hlt, hnv, hrok']
    exact abortInv_prepend (abortInv_ok_clean ih2 hrok') ih1
  | case21 next v i hlt nv hnv r hrnok ih =>
    rw [trav_arrCh_eq]
    simp only [if_pos hlt, hnv]
    cases hr2 : (_trav t (.node (some { next with offset := (i : Int) })
        true nv)).2 with
    | ok => exact absurd hr2 hrnok
    | fail e =>
      have h2 : abortInv ((_trav t (.node
          (some { next with offset := (i : Int) }) true nv)).1,
          (_trav t (.node (some { next with offset := (i : Int) })
          true nv)).2) := ih
      rw [hr2] at h2
      exact h2
    | panicked msg =>
      have h2 : abortInv ((_trav t (.node
          (some { next with offset := (i : Int) }) true nv)).1,
          (_trav t (.node (some { next with offset := (i : Int) })
          true nv)).2) := ih
      rw [hr2] at h2
      exact h2
  | case22 next v i hlt hnv =>
    rw [trav_arrCh_eq]
    simp only [if_pos hlt, hnv]
    exact Or.inl cleanEvents_nil
  | case23 next v i hlt =>
    rw [trav_arrCh_eq]
    simp only [if_neg hlt]
    exact Or.inl cleanEvents_nil
  | case24 next v i hlt kv hent rk hkok rv hvok ih3 ih2 ih1 =>
    have hkok' : (_trav t (.node
        (some { next with offset := 2 * (i : Int) }) true kv.1)).2 = .ok :=
      hkok
    have hvok' : (_trav t (.node
        (some { next with offset := 2 * (i : Int) + 1 }) true kv.2)).2 =
        .ok := hvok
    rw [trav_mapCh_eq]
    simp only [if_pos hlt, hent, hkok', hvok']
    exact abortInv_prepend (cleanEvents_append
      (abortInv_ok_clean ih3 hkok') (abortInv_ok_clean ih2 hvok')) ih1
  | case25 next v i hlt kv hent rk hkok rv hvnok ih2 ih1 =>
    have hkok' : (_trav t (.node
        (some { next with offset := 2 * (i : Int) }) true kv.1)).2 = .ok :=
      hkok
    rw [trav_mapCh_eq]
    simp only [if_pos hlt, hent, hkok']
    cases hrv : (_trav t (.node
        (some { next with offset := 2 * (i : Int) + 1 }) true kv.2)).2 with
    | ok => exact absurd hrv hvnok
    | fail e =>
      have h2 := abortInv_prepend (abortInv_ok_clean ih2 hkok') ih1
      rw [hrv] at h2
      exact h2
    | panicked msg =>
      have h2 := abortInv_prepend (abortInv_ok_clean ih2 hkok') ih1
      rw [hrv] at h2
      exact h2
  | case26 next v i hlt kv hent rk hknok ih =>
    rw [trav_mapCh_eq]
    simp only [if_pos hlt, hent]
    cases hrk : (_trav t (.node
        (some { next with offset := 2 * (i : Int) }) true kv.1)).2 with
    | ok => exact absurd hrk hknok
    | fail e =>
      have h2 : abortInv ((_trav t (.node
          (some { next with offset := 2 * (i : Int) }) true kv.1)).1,
          (_trav t (.node (some { next with offset := 2 * (i : Int) })
          true kv.1)).2) := ih
      rw [hrk] at h2
      exact h2
    | panicked msg =>
      have h2 : abortInv ((_trav t (.node
          (some { next with offset := 2 * (i : Int) }) true kv.1)).1,
          (_trav t (.node (some { next with offset := 2 * (i : Int) })
          true kv.1)).2) := ih
      rw [hrk] at h2
      exact h2
  | case27 next v i hlt hent =>
    rw [trav_mapCh_eq]
    simp only [if_pos hlt, hent]
    exact Or.inl cleanEvents_nil
  | case28 next v i hlt =>
    rw [trav_mapCh_eq]
    simp only [if_neg hlt]
    exact Or.inl cleanEvents_nil
  | case29 next v i field hfld hneg ih =>
    rw [trav_structCh_eq]
    simp only [hfld, if_pos hneg]
    exact ih
  | case30 next v i field hfld hneg fv hf r hrok ih2 ih1 =>
    have hrok' : (_trav t (.node (some { next with offset := (i : Int) })
        true fv.2)).2 = .ok := hrok
    rw [trav_structCh_eq]
    simp only [hfld, if_neg hneg, hf, hrok']
    exact abortInv_prepend (abortInv_ok_clean ih2 hrok') ih1
  | case31 next v i field hfld hneg fv hf r hrnok ih =>
    rw [trav_structCh_eq]
    simp only [hfld, if_neg hneg, hf]
    cases hr2 : (_trav t (.node (some { next with offset := (i : Int) })
        true fv.2)).2 with
    | ok => exact absurd hr2 hrnok
    | fail e =>
      have h2 : abortInv ((_trav t (.node
          (some { next with offset := (i : Int) }) true fv.2)).1,
          (_trav t (.node (some { next with offset := (i : Int) })
          true fv.2)).2) := ih
      rw [hr2] at h2
      exact h2
    | panicked msg =>
      have h2 : abortInv ((_trav t (.node
          (some { next with offset := (i : Int) }) true fv.2)).1,
          (_trav t (.node (some { next with offset := (i : Int) })
          true fv.2)).2) := ih
      rw [hr2] at h2
      exact h2
  | case32 next v i field hfld hneg hf =>
    rw [trav_structCh_eq]
    simp only [hfld, if_neg hneg, hf]
    exact Or.inl cleanEvents_nil
  | case33 next v i hfld =>
    rw [trav_structCh_eq]
    simp only [hfld]
    exact Or.inl cleanEvents_nil

/-- Modelled from the spec: the heap of `TraverseConf` cells.  Go's
`*TraverseConf` is a pointer into the heap; a cell address is an index
into the cell list. -/
structure ConfHeap where
  cells : List TraverseConf

/-- Modelled from the spec: dereference a configuration pointer. -/
def ConfHeap.read (h : ConfHeap) (a : Nat) : Option TraverseConf :=
  h.cells.get? a

/-- Modelled from the spec: write through a configuration pointer (the
caller mutating their own `TraverseConf`). -/
def ConfHeap.write (h : ConfHeap) (a : Nat) (c : TraverseConf) : ConfHeap :=
  { cells := h.cells.set a c }

/-- Modelled from the spec: allocate a fresh configuration cell (what
`Clone` does on the heap) and return its address. -/
def ConfHeap.alloc (h : ConfHeap) (c : TraverseConf) : ConfHeap × Nat :=
  ({ cells := h.cells ++ [c] }, h.cells.length)

/-- Modelled from the spec: the kind names used in `NewTraveller`'s
duplicate-binding error message (`reflect.Kind.String`). -/
def GoKind.str : GoKind → String
  | .kInvalid => "invalid"
  | .kBool => "bool"
  | .kInt => "int"
  | .kInt8 => "int8"
  | .kInt16 => "int16"
  | .kInt32 => "int32"
  | .kInt64 => "int64"
  | .kUint => "uint"
  | .kUint8 => "uint8"
  | .kUint16 => "uint16"
  | .kUint32 => "uint32"
  | .kUint64 => "uint64"
  | .kString => "string"
  | .kArray => "array"
  | .kSlice => "slice"
  | .kMap => "map"
  | .kStruct => "struct"
  | .kPtr => "ptr"

/-- Modelled from the spec: one operation the adapter exposes, as
`NewTraveller`'s loop sees it: the method name, the result of the name
classification `Unknown.Which` (`none` when the name does not
classify), the receiver/signature validity check
`IsValidWithReceiver`, the bound type name (read from the signature for
the exact-type categories), and the callback itself. -/
structure AdapterMethod where
  name : String
  which : Option (ItemType × GoKind)
  valid : Bool
  inType : String
  behavior : Binding

/-- The tables `NewTraveller`'s loop accumulates (`items`, `shortcuts`,
`typeMethods`, `kindMethods`). -/
structure BuildState where
  items : List OrderItem
  shortcuts : List (ItemType × Binding)
  typeMethods : List (String × Binding)
  kindMethods : List (GoKind × Binding)

def emptyBuild : BuildState :=
  { items := [], shortcuts := [], typeMethods := [], kindMethods := [] }

/-- One iteration of `NewTraveller`'s method loop (`traversal.go` lines
50-94): skip unclassified or invalid methods, otherwise register the
binding in its family's table, failing on a duplicate target. -/
def buildStep (st : BuildState) (i : Nat) (m : AdapterMethod) :
    Except String BuildState :=
  match m.which with
  | none => .ok st
  | some (itype, inKind) =>
    if m.valid then
      match itype with
      | .ForImpl | .ForAssign =>
        match st.typeMethods.lookup m.inType with
        | some _ =>
          .error ("duplicated binding function " ++ m.name ++
            " found for Type:" ++ m.inType)
        | none =>
          .ok { st with
            items := st.items ++
              [{ i := i, o := 0, t := some m.inType, c := false,
                 k := .kInvalid }],
            typeMethods := st.typeMethods ++ [(m.inType, m.behavior)] }
      | .ForKind | .ForContainer =>
        match st.kindMethods.lookup inKind with
        | some _ =>
          .error ("duplicated binding function " ++ m.name ++
            " found for Kind:" ++ inKind.str)
        | none =>
          .ok { st with
            items := st.items ++
              [{ i := i, o := 0, t := none, c := itype == .ForContainer,
                 k := inKind }],
            kindMethods := st.kindMethods ++ [(inKind, m.behavior)] }
      | _ =>
        match st.shortcuts.lookup itype with
        | some _ =>
          .error ("duplicated binding function " ++ m.name ++ " found")
        | none =>
          .ok { st with shortcuts := st.shortcuts ++ [(itype, m.behavior)] }
    else .ok st

/-- `NewTraveller`'s method loop, from a given state and method index. -/
def buildFrom (st : BuildState) (i : Nat) :
    List AdapterMethod → Except String BuildState
  | [] => .ok st
  | m :: ms =>
    match buildStep st i m with
    | .error e => .error e
    | .ok st2 => buildFrom st2 (i + 1) ms

def buildAll (ms : List AdapterMethod) : Except String BuildState :=
  buildFrom emptyBuild 0 ms

/-- Insertion sort used to model Go's `sort.Sort` (stable for the
comparators used here). -/
def insertLe {α : Type} (le : α → α → Bool) (a : α) : List α → List α
  | [] => [a]
  | b :: bs => if le a b then a :: b :: bs else b :: insertLe le a bs

def isort {α : Type} (le : α → α → Bool) : List α → List α
  | [] => []
  | a :: as => insertLe le a (isort le as)

/-- Modelled from the spec: the order of the binding list (`orderItems`
sorting, declared outside `traversal.go`): order key, then declaration
order. -/
def orderItemLe (a b : OrderItem) : Bool :=
  a.o < b.o || (a.o == b.o && a.i ≤ b.i)

/-- `NewTraveller` (`traversal.go` lines 40-125) over the modelled
method list: run the classification loop, fail when it found nothing,
otherwise sort the binding list, clone the configuration, and split the
shortcut categories into the prefix and suffix lists by priority. -/
def NewTraveller (ms : List AdapterMethod) (config : Option TraverseConf) :
    Except String Traveller :=
  match buildAll ms with
  | .error e => .error e
  | .ok st =>
    if st.items.isEmpty && st.shortcuts.isEmpty then
      .error "no available binding function found"
    else
      .ok { conf := config.map TraverseConf.Clone,
            prefixes := isort (fun a b => a.priority ≤ b.priority)
              ((st.shortcuts.map Prod.fst).filter ItemType.isPre),
            suffixes := isort (fun a b => a.priority ≤ b.priority)
              ((st.shortcuts.map Prod.fst).filter ItemType.isSuf),
            shortcuts := st.shortcuts,
            typeMethods := st.typeMethods,
            kindMethods := st.kindMethods,
            typeOrder := isort orderItemLe st.items }

/-- The (family, target) pair a method classifies into, when it is a
valid binding: exact type, kind, or shortcut category. -/
def classifyTarget (m : AdapterMethod) : Option BindId :=
  if m.valid then
    match m.which with
    | some (itype, inKind) =>
      match itype with
      | .ForImpl | .ForAssign => some (.typeB m.inType)
      | .ForKind | .ForContainer => some (.kindB inKind)
      | _ => some (.shortcutB itype)
    | none => none
  else none

/-- Whether a build state already holds a binding for the target. -/
def stHas (st : BuildState) (b : BindId) : Bool :=
  match b with
  | .typeB ty => (st.typeMethods.lookup ty).isSome
  | .kindB k => (st.kindMethods.lookup k).isSome
  | .shortcutB it => (st.shortcuts.lookup it).isSome

theorem dup_ne_missing (s : String) :
    "duplicated binding function " ++ s ≠
      "no available binding function found" := by
  intro h
  have h2 := congrArg String.data h
  simp [String.data_append] at h2

theorem lookup_append_some {α β : Type} [BEq α] {l1 : List (α × β)}
    (l2 : List (α × β)) {k : α} {v : β} (h : l1.lookup k = some v) :
    (l1 ++ l2).lookup k = some v := by
  induction l1 with
  | nil => cases h
  | cons x xs ih =>
    obtain ⟨xk, xv⟩ := x
    cases hk : k == xk
    · simp only [List.cons_append, List.lookup, hk] at h ⊢
      exact ih h
    · simp only [List.cons_append, List.lookup, hk] at h ⊢
      exact h

theorem lookup_append_none {α β : Type} [BEq α] [LawfulBEq α]
    {l1 : List (α × β)} {k : α} (h : l1.lookup k = none) (v : β) :
    (l1 ++ [(k, v)]).lookup k = some v := by
  induction l1 with
  | nil => simp [List.lookup]
  | cons x xs ih =>
    obtain ⟨xk, xv⟩ := x
    cases hk : k == xk
    · simp only [List.cons_append, List.lookup, hk] at h ⊢
      exact ih h
    · simp only [List.lookup, hk] at h
      cases h

theorem stHas_buildStep_mono {st st2 : BuildState} {i : Nat}
    {m : AdapterMethod} {b : BindId} (h : buildStep st i m = .ok st2)
    (hb : stHas st b = true) : stHas st2 b = true := by
  unfold buildStep at h
  repeat' split at h
  all_goals cases h
  all_goals
    (cases b with
     | typeB ty =>
       simp only [stHas] at hb ⊢
       first
         | exact hb
         | (rcases Option.isSome_iff_exists.mp hb with ⟨w, hw⟩
            rw [lookup_append_some _ hw]
            rfl)
     | kindB k =>
       simp only [stHas] at hb ⊢
       first
         | exact hb
         | (rcases Option.isSome_iff_exists.mp hb with ⟨w, hw⟩
            rw [lookup_append_some _ hw]
            rfl)
     | shortcutB it =>
       simp only [stHas] at hb ⊢
       first
         | exact hb
         | (rcases Option.isSome_iff_exists.mp hb with ⟨w, hw⟩
            rw [lookup_append_some _ hw]
            rfl))

theorem stHas_buildStep_add {st st2 : BuildState} (i : Nat)
    {m : AdapterMethod} {b : BindId} (h : buildStep st i m = .ok st2)
    (hm : classifyTarget m = some b) : stHas st2 b = true := by
  obtain ⟨name, which, valid, inType, behavior⟩ := m
  cases valid with
  | false => simp [classifyTarget] at hm
  | true =>
    cases which with
    | none => simp [classifyTarget] at hm
    | some p =>
      obtain ⟨itype, inKind⟩ := p
      cases itype
      all_goals simp only [classifyTarget, if_true] at hm
      all_goals injection hm with hm2
      all_goals subst hm2
      all_goals simp only [buildStep, if_true] at h
      all_goals split at h
      any_goals cases h
      all_goals rename_i hlook
      all_goals simp only [stHas]
      all_goals rw [lookup_append_none hlook]
      all_goals rfl

theorem buildStep_dup (i : Nat) {st : BuildState} {m : AdapterMethod}
    {b : BindId} (hm : classifyTarget m = some b)
    (hb : stHas st b = true) : ∃ e, buildStep st i m = .error e := by
  obtain ⟨name, which, valid, inType, behavior⟩ := m
  cases valid with
  | false => simp [classifyTarget] at hm
  | true =>
    cases which with
    | none => simp [classifyTarget] at hm
    | some p =>
      obtain ⟨itype, inKind⟩ := p
      cases itype
      all_goals simp only [classifyTarget, if_true] at hm
      all_goals injection hm with hm2
      all_goals subst hm2
      all_goals simp only [stHas] at hb
      all_goals rcases Option.isSome_iff_exists.mp hb with ⟨w, hw⟩
      all_goals simp only [buildStep, if_true, hw]
      all_goals exact ⟨_, rfl⟩

theorem buildStep_skip {st : BuildState} (i : Nat) {m : AdapterMethod}
    (h : classifyTarget m = none) : buildStep st i m = .ok st := by
  obtain ⟨name, which, valid, inType, behavior⟩ := m
  cases valid with
  | false =>
    cases which with
    | none => rfl
    | some p => obtain ⟨itype, inKind⟩ := p; rfl
  | true =>
    cases which with
    | none => rfl
    | some p =>
      obtain ⟨itype, inKind⟩ := p
      cases itype
      all_goals simp [classifyTarget] at h

theorem buildStep_error_dup {st : BuildState} {i : Nat}
    {m : AdapterMethod} {e : String} (h : buildStep st i m = .error e) :
    ∃ s, e = "duplicated binding function " ++ s := by
  unfold buildStep at h
  repeat' split at h
  all_goals cases h
  all_goals simp only [String.append_assoc]
  all_goals exact ⟨_, rfl⟩

theorem buildFrom_error_shape {st : BuildState} {i : Nat}
    {ms : List AdapterMethod} {e : String}
    (h : buildFrom st i ms = .error e) :
    ∃ s, e = "duplicated binding function " ++ s := by
  induction ms generalizing st i with
  | nil => cases h
  | cons m ms ih =>
    rw [buildFrom] at h
    cases hs : buildStep st i m with
    | error e2 =>
      rw [hs] at h
      cases h
      exact buildStep_error_dup hs
    | ok st2 =>
      rw [hs] at h
      exact ih h

theorem buildFrom_error_mono {st : BuildState} (i : Nat)
    {y : AdapterMethod} {b : BindId} (hy : classifyTarget y = some b)
    (hb : stHas st b = true) (l2 l3 : List AdapterMethod) :
    ∃ e, buildFrom st i (l2 ++ y :: l3) = .error e := by
  induction l2 generalizing st i with
  | nil =>
    rcases buildStep_dup i hy hb with ⟨e, he⟩
    refine ⟨e, ?_⟩
    rw [List.nil_append, buildFrom, he]
  | cons z zs ih =>
    cases hz : buildStep st i z with
    | error e =>
      refine ⟨e, ?_⟩
      rw [List.cons_append, buildFrom, hz]
    | ok st2 =>
      rcases ih (i + 1) (stHas_buildStep_mono hz hb) with ⟨e, he⟩
      refine ⟨e, ?_⟩
      rw [List.cons_append, buildFrom, hz]
      exact he

theorem buildFrom_dup_error {st : BuildState} (i : Nat)
    (l1 : List AdapterMethod) {x y : AdapterMethod} {b : BindId}
    (hx : classifyTarget x = some b) (hy : classifyTarget y = some b)
    (l2 l3 : List AdapterMethod) :
    ∃ e, buildFrom st i (l1 ++ x :: l2 ++ y :: l3) = .error e := by
  induction l1 generalizing st i with
  | nil =>
    rw [List.nil_append]
    cases hx2 : buildStep st i x with
    | error e =>
      refine ⟨e, ?_⟩
      rw [List.cons_append, buildFrom.eq_2, hx2]
    | ok st2 =>
      rcases buildFrom_error_mono (i + 1) hy
        (stHas_buildStep_add i hx2 hx) l2 l3 with ⟨e, he⟩
      refine ⟨e, ?_⟩
      rw [List.cons_append, buildFrom.eq_2, hx2]
      exact he
  | cons z zs ih =>
    cases hz : buildStep st i z with
    | error e =>
      refine ⟨e, ?_⟩
      rw [List.cons_append, List.cons_append, buildFrom.eq_2, hz]
    | ok st2 =>
      rcases ih (i + 1) with ⟨e, he⟩
      refine ⟨e, ?_⟩
      rw [List.cons_append, List.cons_append, buildFrom.eq_2, hz]
      exact he

theorem buildFrom_skip_all {ms : List AdapterMethod}
    (h : ∀ m ∈ ms, classifyTarget m = none) (st : BuildState) (i : Nat) :
    buildFrom st i ms = .ok st := by
  induction ms generalizing st i with
  | nil => rfl
  | cons m ms ih =>
    rw [buildFrom.eq_2, buildStep_skip i (h m (List.mem_cons_self m ms))]
    exact ih (fun m2 hm2 => h m2 (List.mem_cons_of_mem m hm2)) st (i + 1)

/-- Transport a fueled evaluation through any projection: if the fueled
mirror computes, its value is the walker's value. -/
theorem travFuel_map {α : Type} {t : Traveller} {n : Nat} {c : TravCall}
    {f : List Event × TRes → α} {x : α}
    (h : (travFuel t n c).map f = some x) : f (_trav t c) = x := by
  cases hf : travFuel t n c with
  | none =>
    rw [hf] at h
    cases h
  | some r =>
    rw [hf] at h
    rw [travFuel_sound hf]
    exact Option.some.inj h

/-- A callback that always descends and never errs. -/
def bOk : Binding := fun _ => (true, none)

/-- A callback that errs exactly on container end notifications. -/
def bEndErr : Binding := fun inp =>
  if inp.startOrEnd then (true, none) else (true, some "boom")

/-- A property list with a filtered (negative-index) middle entry. -/
def props5 : List Property :=
  [{ Index := 0, Name := "a", IndexForReal := -1 },
   { Index := -1, Name := "b", IndexForReal := -1 },
   { Index := 1, Name := "c", IndexForReal := -1 }]

def prop5 : GoValue → Int × List Property := fun _ => (3, props5)

def confA : TraverseConf :=
  { Propertier := none, PtrAutoGoIn := false, ContainerEnd := true,
    IgnoreMissedBinding := true }

def confB : TraverseConf :=
  { Propertier := none, PtrAutoGoIn := false, ContainerEnd := false,
    IgnoreMissedBinding := true }

def confP : TraverseConf :=
  { Propertier := some prop5, PtrAutoGoIn := false, ContainerEnd := false,
    IgnoreMissedBinding := true }

def confPtr : TraverseConf :=
  { Propertier := none, PtrAutoGoIn := true, ContainerEnd := false,
    IgnoreMissedBinding := true }

/-- A traveller with one container binding for maps. -/
def tMapT : Traveller :=
  { conf := some confA, prefixes := [], suffixes := [], shortcuts := [],
    typeMethods := [], kindMethods := [(.kMap, bOk)],
    typeOrder := [{ i := 0, o := 0, t := none, c := true, k := .kMap }] }

def vMap1 : GoValue :=
  .vMap "map[int]int" (some [(.vScalar "int" .kInt, .vScalar "int" .kInt)])

/-- The frame `_call` opens for `vMap1`. -/
def next1 : ParentInfo :=
  { depth := 0, value := vMap1, size := 2, offset := -1,
    structFields := [], binding := bOk, bid := .kindB .kMap }

/-- A traveller whose array binding errs on the end notification. -/
def tArrE : Traveller :=
  { conf := some confA, prefixes := [], suffixes := [], shortcuts := [],
    typeMethods := [], kindMethods := [(.kArray, bEndErr)],
    typeOrder := [{ i := 0, o := 0, t := none, c := true, k := .kArray }] }

def vArr1 : GoValue := .vArray "A" [.vScalar "int" .kInt]

/-- A traveller with a struct binding and the filtering resolver. -/
def tStructP : Traveller :=
  { conf := some confP, prefixes := [], suffixes := [], shortcuts := [],
    typeMethods := [], kindMethods := [(.kStruct, bOk)],
    typeOrder := [{ i := 0, o := 0, t := none, c := true, k := .kStruct }] }

def vStruct2 : GoValue :=
  .vStruct "S5" [({ name := "a", exported := true }, .vScalar "int" .kInt),
                 ({ name := "b", exported := true },
                  .vScalar "string" .kString)]

/-- The frame `_call` opens for `vStruct2` under `tStructP`. -/
def next5 : ParentInfo :=
  { depth := 0, value := vStruct2, size := 3, offset := -1,
    structFields := props5, binding := bOk, bid := .kindB .kStruct }

/-- A traveller with array and struct container bindings. -/
def tArrSt : Traveller :=
  { conf := some confB, prefixes := [], suffixes := [], shortcuts := [],
    typeMethods := [],
    kindMethods := [(.kArray, bOk), (.kStruct, bOk)],
    typeOrder := [{ i := 0, o := 0, t := none, c := true, k := .kArray },
                  { i := 1, o := 0, t := none, c := true, k := .kStruct }] }

def vS : GoValue :=
  .vStruct "S" [({ name := "f", exported := true }, .vScalar "int" .kInt)]

def vArr2 : GoValue := .vArray "AS" [vS, vS]

/-- A traveller with one exact-type binding for `int` and pointer
auto-unwrap. -/
def tPtrT : Traveller :=
  { conf := some confPtr, prefixes := [], suffixes := [], shortcuts := [],
    typeMethods := [("int", bOk)], kindMethods := [],
    typeOrder := [{ i := 0, o := 0, t := some "int", c := false,
                    k := .kInvalid }] }

def vPtrI : GoValue := .vPtr "PI" (some (.vScalar "int" .kInt))

/-- A traveller with only an all-kinds suffix shortcut and pointer
auto-unwrap. -/
def tPtrS : Traveller :=
  { conf := some confPtr, prefixes := [], suffixes := [.ForAllKinds],
    shortcuts := [(.ForAllKinds, bOk)], typeMethods := [],
    kindMethods := [], typeOrder := [] }

def vPtrN : GoValue := .vPtr "PN" none

/-- C1: with the end notifications configured, a node whose `_call`
opened a container frame and whose children completed has as trace the
visit, the start-call events, the children's events, and then exactly
one end notification carrying the opened frame (its depth and final
size) — and when the start binding refused descent, the node's trace
holds no end notification at all. -/
theorem c1 (t : Traveller) (parent : Option ParentInfo) (ve : Bool)
    (v : GoValue)
    (hconf : confContainerEnd t = true)
    (hres : (_call t parent v).res = .ok)
    (hre : (_call t parent v).reEnter = false) :
    (∀ next : ParentInfo, (_call t parent v).goin = true →
      (_call t parent v).info = some next →
      (_trav t (.children next v)).2 = .ok →
      (_trav t (.node parent ve v)).1 =
        (if ve then [Event.visit (nextDepth parent) (parentOffset parent) v]
         else []) ++ (_call t parent v).events ++
        (_trav t (.children next v)).1 ++
        [Event.call next.bid .containerEnd next.depth (parentOffset parent)
          next.size v (next.binding (endContainerIns parent next v))]) ∧
    ((_call t parent v).goin = false →
      ∀ ev ∈ (_trav t (.node parent ve v)).1, ev.isEndCall = false) := by
  constructor
  · intro next hgo hinfo hcok
    rw [trav_node_eq]
    simp only [hres, hre, hgo, hinfo, hcok, hconf, if_true, if_false,
      Bool.false_eq_true]
    cases hb : (next.binding (endContainerIns parent next v)).2 with
    | none => rfl
    | some e => rfl
  · intro hgo2 ev hev
    rw [trav_node_eq] at hev
    simp only [hres, hre, hgo2, if_true, if_false, Bool.false_eq_true]
      at hev
    rcases List.mem_append.mp hev with h1 | h1
    · cases ve
      · simp at h1
      · simp only [if_true, List.mem_singleton] at h1
        subst h1
        rfl
    · exact (_call_events_shape t parent v ev h1).2.1

/-- Witness for C1: the map traveller opens `vMap1`, its children
complete, and the node trace ends in the single end notification. -/
theorem c1_witness :
    confContainerEnd tMapT = true ∧
    (_call tMapT none vMap1).res = .ok ∧
    (_call tMapT none vMap1).reEnter = false ∧
    (_call tMapT none vMap1).goin = true ∧
    (_call tMapT none vMap1).info = some next1 ∧
    (_trav tMapT (.children next1 vMap1)).2 = .ok ∧
    (_trav tMapT (.node none true vMap1)).1 =
      (if true then [Event.visit (nextDepth none) (parentOffset none) vMap1]
       else []) ++ (_call tMapT none vMap1).events ++
      (_trav tMapT (.children next1 vMap1)).1 ++
      [Event.call next1.bid .containerEnd next1.depth (parentOffset none)
        next1.size vMap1
        (next1.binding (endContainerIns none next1 vMap1))] := by
  have hcok : (_trav tMapT (.children next1 vMap1)).2 = .ok :=
    travFuel_map (rfl :
      (travFuel tMapT 20 (.children next1 vMap1)).map Prod.snd =
        some .ok)
  refine ⟨rfl, rfl, rfl, rfl, rfl, hcok, ?_⟩
  exact (c1 tMapT none true vMap1 rfl rfl rfl).1 next1 rfl rfl hcok

theorem length_flatMap_pairs {α β : Type} (f g : α → β) (l : List α) :
    (l.flatMap (fun p => [f p, g p])).length = 2 * l.length := by
  induction l with
  | nil => rfl
  | cons x xs ih =>
    rw [List.cons_bind, List.length_append, ih]
    simp only [List.length_cons, List.length_nil]
    omega

/-- C2: a non-nil map whose `_call` opened a container frame got size
twice its entry count, and when the child walk completes it visits, for
the i-th entry, the key at even offset `2i` and the value immediately
after at `2i + 1` — `2M` child visits in all. -/
theorem c2 (t : Traveller) (parent : Option ParentInfo) (v : GoValue)
    (next : ParentInfo)
    (hk : v.kind = .kMap) (hnn : v.isNil = false)
    (hgo : (_call t parent v).goin = true)
    (hinfo : (_call t parent v).info = some next)
    (hok : (_trav t (.children next v)).2 = .ok) :
    next.size = 2 * (v.entriesOf.length : Int) ∧
    visitsAt (next.depth + 1) (_trav t (.children next v)).1 =
      (List.enumFrom 0 v.entriesOf).flatMap (fun p =>
        [Event.visit (next.depth + 1) (2 * (p.1 : Int)) p.2.1,
         Event.visit (next.depth + 1) (2 * (p.1 : Int) + 1) p.2.2]) ∧
    (visitsAt (next.depth + 1) (_trav t (.children next v)).1).length =
      2 * v.entriesOf.length := by
  have hfr := _call_open_frame t parent v next hgo hinfo
  have hlen : v.lenVal = v.entriesOf.length := by
    cases v with
    | vScalar ty k => rfl
    | vArray ty l => simp [GoValue.kind] at hk
    | vSlice ty l => simp [GoValue.kind] at hk
    | vMap ty entries =>
      cases entries with
      | none => simp [GoValue.isNil] at hnn
      | some l => rfl
    | vStruct ty l => simp [GoValue.kind] at hk
    | vPtr ty e => simp [GoValue.kind] at hk
  have hsz : next.size = 2 * (v.entriesOf.length : Int) := by
    rw [hfr.2.2.1, hk]
    simp [containerSizeFields, hnn, hlen]
  by_cases hpos : 0 < next.size
  · have h2len : 2 * (v.entriesOf.length : Int) = next.size := hsz.symm
    have hch : _trav t (.children next v) = _trav t (.mapCh next v 0) := by
      rw [trav_children_eq]
      simp only [hk, if_pos hpos, if_pos h2len]
    have hok0 : (_trav t (.mapCh next v 0)).2 = .ok := by
      rw [← hch]
      exact hok
    have hm := trav_master t (.mapCh next v 0)
    simp only [travDepthProp] at hm
    have hv := hm.2 hok0
    rw [List.drop_zero] at hv
    refine ⟨hsz, ?_, ?_⟩
    · rw [hch]
      exact hv
    · rw [hch, hv, length_flatMap_pairs, List.enumFrom_length]
  · have hlen0 : v.entriesOf.length = 0 := by omega
    have hnil : v.entriesOf = [] := List.length_eq_zero.mp hlen0
    have hch : _trav t (.children next v) = ([], .ok) := by
      rw [trav_children_eq]
      simp only [hk, if_neg hpos]
    refine ⟨hsz, ?_, ?_⟩
    · rw [hch, hnil]
      simp [visitsAt]
    · rw [hch, hnil]
      simp [visitsAt]

/-- Witness for C2: the concrete one-entry map gets size 2 and its key
and value are visited at offsets 0 and 1. -/
theorem c2_witness :
    vMap1.kind = .kMap ∧ vMap1.isNil = false ∧
    (_call tMapT none vMap1).goin = true ∧
    (_call tMapT none vMap1).info = some next1 ∧
    (_trav tMapT (.children next1 vMap1)).2 = .ok ∧
    next1.size = 2 * (vMap1.entriesOf.length : Int) ∧
    visitsAt (next1.depth + 1) (_trav tMapT (.children next1 vMap1)).1 =
      (List.enumFrom 0 vMap1.entriesOf).flatMap (fun p =>
        [Event.visit (next1.depth + 1) (2 * (p.1 : Int)) p.2.1,
         Event.visit (next1.depth + 1) (2 * (p.1 : Int) + 1) p.2.2]) ∧
    (visitsAt (next1.depth + 1)
      (_trav tMapT (.children next1 vMap1)).1).length =
      2 * vMap1.entriesOf.length := by
  have hok : (_trav tMapT (.children next1 vMap1)).2 = .ok :=
    travFuel_map (rfl :
      (travFuel tMapT 20 (.children next1 vMap1)).map Prod.snd =
        some .ok)
  have h := c2 tMapT none vMap1 next1 rfl rfl rfl rfl hok
  exact ⟨rfl, rfl, rfl, rfl, hok, h.1, h.2.1, h.2.2⟩

/-- C3: with pointer auto-unwrap configured and no binding matching the
pointer itself, a node on a non-nil pointer emits at most its own visit
event, invokes no callback, and continues as exactly the dispatch of
the pointee under the same parent frame — same depth, same binding
resolution, no extra child visit. -/
theorem c3 (t : Traveller) (parent : Option ParentInfo) (ve : Bool)
    (v pe : GoValue)
    (hpa : confPtrAuto t = true)
    (hk : v.kind = .kPtr)
    (hnn : v.isNil = false)
    (hpe : v.ptrElem = some pe)
    (hnopre : t.prefixes.find? (fun it => it.matchValue v) = none)
    (hnoord : t.typeOrder.find? (fun item => item.matchVal v) = none) :
    _trav t (.node parent ve v) =
      ((if ve then [Event.visit (nextDepth parent) (parentOffset parent) v]
        else []) ++ (_trav t (.node parent false pe)).1,
       (_trav t (.node parent false pe)).2) := by
  have hco : _call t parent v =
      { goin := false, reEnter := true, info := parent,
        newVal := v.ptrElem, events := [], res := .ok } := by
    unfold _call
    rw [hnopre, hnoord]
    simp [hpa, hk, hnn]
  rw [trav_node_eq, hco]
  simp only [hpe]
  simp

/-- Witness for C3: a non-nil pointer under the auto-unwrap traveller
re-enters on the pointee. -/
theorem c3_witness :
    confPtrAuto tPtrT = true ∧ vPtrI.kind = .kPtr ∧
    vPtrI.isNil = false ∧
    vPtrI.ptrElem = some (.vScalar "int" .kInt) ∧
    tPtrT.prefixes.find? (fun it => it.matchValue vPtrI) = none ∧
    tPtrT.typeOrder.find? (fun item => item.matchVal vPtrI) = none ∧
    _trav tPtrT (.node none true vPtrI) =
      ((if true then [Event.visit (nextDepth none) (parentOffset none)
          vPtrI] else []) ++
        (_trav tPtrT (.node none false (.vScalar "int" .kInt))).1,
       (_trav tPtrT (.node none false (.vScalar "int" .kInt))).2) :=
  ⟨rfl, rfl, rfl, rfl, rfl, rfl,
   c3 tPtrT none true vPtrI (.vScalar "int" .kInt) rfl rfl rfl rfl rfl rfl⟩

/-- C9: with pointer auto-unwrap configured, a nil pointer matched by
no prefix shortcut and no ordered binding finishes silently — whatever
the suffix shortcut lists hold, `_call` invokes nothing and succeeds,
so a bound all-kinds suffix shortcut is never consulted for it. -/
theorem c9 (t : Traveller) (parent : Option ParentInfo) (v : GoValue)
    (hpa : confPtrAuto t = true)
    (hk : v.kind = .kPtr)
    (hnil : v.isNil = true)
    (hnopre : t.prefixes.find? (fun it => it.matchValue v) = none)
    (hnoord : t.typeOrder.find? (fun item => item.matchVal v) = none) :
    ∀ sufs : List ItemType,
      _call { t with suffixes := sufs } parent v =
        { goin := false, reEnter := false, info := parent, newVal := none,
          events := [], res := .ok } := by
  intro sufs
  have hpa2 : confPtrAuto { t with suffixes := sufs } = true := hpa
  unfold _call
  rw [show ({ t with suffixes := sufs } : Traveller).prefixes =
    t.prefixes from rfl, hnopre]
  rw [show ({ t with suffixes := sufs } : Traveller).typeOrder =
    t.typeOrder from rfl, hnoord]
  simp [hpa2, hk, hnil]

/-- Witness for C9: the nil pointer under the suffix-shortcut traveller
is finished silently even though the all-kinds shortcut would match
it. -/
theorem c9_witness :
    confPtrAuto tPtrS = true ∧ vPtrN.kind = .kPtr ∧ vPtrN.isNil = true ∧
    tPtrS.prefixes.find? (fun it => it.matchValue vPtrN) = none ∧
    tPtrS.typeOrder.find? (fun item => item.matchVal vPtrN) = none ∧
    ItemType.matchValue .ForAllKinds vPtrN = true ∧
    _call { tPtrS with suffixes := [.ForAllKinds] } none vPtrN =
      { goin := false, reEnter := false, info := none, newVal := none,
        events := [], res := .ok } :=
  ⟨rfl, rfl, rfl, rfl, rfl, rfl,
   c9 tPtrS none vPtrN rfl rfl rfl rfl rfl [.ForAllKinds]⟩

/-- C4 (amended): abort discipline of `Traverse`: either no invoked
callback returned an error, or the erring callback's event is the last
of the trace and its error is the traversal result — verbatim for
shortcuts, type/kind bindings and container starts, and wrapped as
"call container end failed: <err>" for a container end notification. -/
theorem c4_amended (t : Traveller) (obj : Option GoValue) :
    abortInv (Traverse t obj) := by
  cases obj with
  | none => exact Or.inl cleanEvents_nil
  | some v => exact trav_abort t (.node none true v)

/-- Counterexample to C4 as stated: the array traveller's end callback
returns the error "boom", which reaches the caller wrapped, not
verbatim. -/
theorem c4_counterexample :
    (Traverse tArrE (some vArr1)).2 =
      .fail ("call container end failed: " ++ "boom") ∧
    (Traverse tArrE (some vArr1)).2 ≠ .fail "boom" ∧
    ∃ ev ∈ (Traverse tArrE (some vArr1)).1,
      ev.retErr? = some (.containerEnd, "boom") := by
  have h2 : (Traverse tArrE (some vArr1)).2 =
      .fail ("call container end failed: " ++ "boom") :=
    travFuel_map (rfl :
      (travFuel tArrE 20 (.node none true vArr1)).map Prod.snd =
        some (.fail ("call container end failed: " ++ "boom")))
  have h3 : (Traverse tArrE (some vArr1)).1.any
      (fun ev => ev.retErr? == some (.containerEnd, "boom")) = true :=
    travFuel_map (rfl :
      (travFuel tArrE 20 (.node none true vArr1)).map (fun r => r.1.any
        (fun ev => ev.retErr? == some (.containerEnd, "boom"))) =
        some true)
  rcases List.any_eq_true.mp h3 with ⟨ev, hev, hbeq⟩
  refine ⟨h2, ?_, ev, hev, by simpa using hbeq⟩
  rw [h2]
  decide

/-- C5 (amended): a completed struct child walk visits exactly the
resolved properties with non-negative storage index, in property-list
order, and each child's offset is the property's position in the full
resolved list — a filtered property causes no visit but its position is
not reused, so the surviving offsets need not be contiguous. -/
theorem c5_amended (t : Traveller) (next : ParentInfo) (v : GoValue)
    (hk : v.kind = .kStruct)
    (hok : (_trav t (.children next v)).2 = .ok) :
    (visitsAt (next.depth + 1) (_trav t (.children next v)).1).map
        Event.offsetOf =
      ((List.enumFrom 0 next.structFields).filter
        (fun p => decide (0 ≤ p.2.Index))).map (fun p => (p.1 : Int)) := by
  have hch : _trav t (.children next v) = _trav t (.structCh next v 0) := by
    rw [trav_children_eq]
    simp only [hk]
  have hok0 : (_trav t (.structCh next v 0)).2 = .ok := by
    rw [← hch]
    exact hok
  have hm := trav_master t (.structCh next v 0)
  simp only [travDepthProp] at hm
  have hv := hm.2 hok0
  rw [List.drop_zero] at hv
  rw [hch]
  exact hv

/-- Witness for the amended C5: the three resolved properties of
`vStruct2` (middle one filtered) yield visits at offsets 0 and 2. -/
theorem c5_amended_witness :
    vStruct2.kind = .kStruct ∧
    (_trav tStructP (.children next5 vStruct2)).2 = .ok ∧
    (visitsAt (next5.depth + 1)
        (_trav tStructP (.children next5 vStruct2)).1).map Event.offsetOf =
      ((List.enumFrom 0 next5.structFields).filter
        (fun p => decide (0 ≤ p.2.Index))).map (fun p => (p.1 : Int)) := by
  have hok : (_trav tStructP (.children next5 vStruct2)).2 = .ok :=
    travFuel_map (rfl :
      (travFuel tStructP 20 (.children next5 vStruct2)).map Prod.snd =
        some .ok)
  exact ⟨rfl, hok, c5_amended tStructP next5 vStruct2 rfl hok⟩

/-- Counterexample to C5 as stated: with the middle property filtered
the two surviving children are visited at offsets 0 and 2 — the
position of a filtered property is consumed, the offsets are not
contiguous. -/
theorem c5_counterexample :
    (visitsAt 1 (Traverse tStructP (some vStruct2)).1).map Event.offsetOf =
      [0, 2] ∧
    (visitsAt 1 (Traverse tStructP (some vStruct2)).1).map Event.offsetOf ≠
      [0, 1] := by
  have h : (visitsAt 1 (Traverse tStructP (some vStruct2)).1).map
      Event.offsetOf = ([0, 2] : List Int) :=
    travFuel_map (rfl :
      (travFuel tStructP 20 (.node none true vStruct2)).map
        (fun r => (visitsAt 1 r.1).map Event.offsetOf) = some [0, 2])
  refine ⟨h, ?_⟩
  rw [h]
  decide

/-- C6 is contradicted by the code: `structTypeCache` is declared but
never read or written, so the property list of a struct type is
recomputed at every visit — here the same type "S" is resolved twice in
one traversal (one `props` event per resolution). -/
theorem c6_recompute :
    ((Traverse tArrSt (some vArr2)).1.filter (fun ev =>
      match ev with
      | .props ty _ => ty == "S"
      | _ => false)).length = 2 :=
  travFuel_map (rfl :
    (travFuel tArrSt 30 (.node none true vArr2)).map
      (fun r => (r.1.filter (fun ev =>
        match ev with
        | .props ty _ => ty == "S"
        | _ => false)).length) = some 2)

/-- C8: an invalid/untyped root is a no-op success: an empty trace (no
callback is invoked) and a nil error. -/
theorem c8 (t : Traveller) : Traverse t none = ([], .ok) := rfl

/-- C10: the configuration is cloned into a fresh heap cell at
construction: after the caller overwrites their own cell, the engine's
cell still reads the clone, and every traversal behaves exactly as with
the configuration supplied at construction. -/
theorem c10 (h : ConfHeap) (a : Nat) (c c2 : TraverseConf)
    (ha : h.read a = some c) :
    (((h.alloc (TraverseConf.Clone c)).1.write a c2).read
        (h.alloc (TraverseConf.Clone c)).2 =
      some (TraverseConf.Clone c)) ∧
    ∀ (tmpl : Traveller) (obj : Option GoValue),
      Traverse { tmpl with conf :=
          (((h.alloc (TraverseConf.Clone c)).1.write a c2).read
            (h.alloc (TraverseConf.Clone c)).2) } obj =
        Traverse { tmpl with conf := some c } obj := by
  have hlt : a < h.cells.length := (List.get?_eq_some.mp ha).1
  have hread : ((h.alloc (TraverseConf.Clone c)).1.write a c2).read
      (h.alloc (TraverseConf.Clone c)).2 =
      some (TraverseConf.Clone c) := by
    show ((h.cells ++ [TraverseConf.Clone c]).set a c2).get?
      h.cells.length = some (TraverseConf.Clone c)
    rw [List.get?_eq_getElem?, List.getElem?_set_ne (by omega)]
    exact List.getElem?_concat_length h.cells (TraverseConf.Clone c)
  refine ⟨hread, fun tmpl obj => ?_⟩
  rw [hread]
  rfl

/-- Witness for C10: a one-cell heap; the caller's overwrite of cell 0
does not reach the engine's cell. -/
theorem c10_witness :
    (ConfHeap.mk [confA]).read 0 = some confA ∧
    ((((ConfHeap.mk [confA]).alloc (TraverseConf.Clone confA)).1.write 0
        confPtr).read
      ((ConfHeap.mk [confA]).alloc (TraverseConf.Clone confA)).2 =
      some (TraverseConf.Clone confA)) ∧
    Traverse { tMapT with conf :=
        ((((ConfHeap.mk [confA]).alloc (TraverseConf.Clone confA)).1.write
          0 confPtr).read
          ((ConfHeap.mk [confA]).alloc (TraverseConf.Clone confA)).2) }
      none = Traverse { tMapT with conf := some confA } none := by
  have h := c10 (ConfHeap.mk [confA]) 0 confA confPtr rfl
  exact ⟨rfl, h.1, h.2 tMapT none⟩

def m7a : AdapterMethod :=
  { name := "MethodA", which := some (.ForImpl, .kInvalid), valid := true,
    inType := "int", behavior := bOk }

def m7b : AdapterMethod :=
  { name := "MethodB", which := some (.ForAssign, .kInvalid), valid := true,
    inType := "int", behavior := bOk }

def m7n : AdapterMethod :=
  { name := "Helper", which := none, valid := true, inType := "",
    behavior := bOk }

/-- C7: construction fails whenever two exposed operations classify
into the same (family, target) pair — same exact type, same kind, or
same shortcut category — with a duplicate error distinct from the
no-binding error; and it fails with exactly the no-binding error when
no exposed operation classifies as a binding. -/
theorem c7 (config : Option TraverseConf) :
    (∀ (l1 l2 l3 : List AdapterMethod) (x y : AdapterMethod) (b : BindId),
      classifyTarget x = some b → classifyTarget y = some b →
      ∃ e, NewTraveller (l1 ++ x :: l2 ++ y :: l3) config = .error e ∧
        e ≠ "no available binding function found") ∧
    (∀ ms : List AdapterMethod, (∀ m ∈ ms, classifyTarget m = none) →
      NewTraveller ms config =
        .error "no available binding function found") := by
  constructor
  · intro l1 l2 l3 x y b hx hy
    rcases @buildFrom_dup_error emptyBuild 0 l1 x y b hx hy l2 l3 with
      ⟨e, he⟩
    refine ⟨e, ?_, ?_⟩
    · unfold NewTraveller buildAll
      rw [he]
    · rcases buildFrom_error_shape he with ⟨s, hs⟩
      rw [hs]
      exact dup_ne_missing s
  · intro ms hms
    unfold NewTraveller buildAll
    rw [buildFrom_skip_all hms emptyBuild 0]
    rfl

/-- Witness for C7: two exact-type bindings for "int" make construction
fail with a duplicate error, and an adapter whose only method does not
classify fails with the no-binding error. -/
theorem c7_witness :
    classifyTarget m7a = some (.typeB "int") ∧
    classifyTarget m7b = some (.typeB "int") ∧
    (∃ e, NewTraveller ([] ++ m7a :: [] ++ m7b :: []) none = .error e ∧
      e ≠ "no available binding function found") ∧
    (∀ m ∈ [m7n], classifyTarget m = none) ∧
    NewTraveller [m7n] none =
      .error "no available binding function found" := by
  have hnone : ∀ m ∈ [m7n], classifyTarget m = none := by
    intro m hm
    simp only [List.mem_singleton] at hm
    subst hm
    rfl
  exact ⟨rfl, rfl,
    (c7 none).1 [] [] [] m7a m7b (.typeB "int") rfl rfl,
    hnone, (c7 none).2 [m7n] hnone⟩
